import Mathlib

/-!
Shallow embedding of the combat / world-state engine of the
lost-mine-of-thenvoi repository, and theorems settling the frozen claims
about it.

Sources embedded:
  - src/tools/dice.py           (notation parsing, roll_dice, roll_damage, check_hit)
  - src/tools/world_state.py    (WorldStateManager.update_hp, remove_enemy)
  - src/game/models.py          (TurnState, CombatState, CharacterState, EnemyState, ...)
  - src/game/combat.py          (get_attack_bonus, get_damage_dice, resolve_attack,
                                 advance_turn, check_combat_end, end_combat)
  - src/agents/player_agent.py / npc_agent.py (the turn-state fallback of
    should_respond: the human-sentinel check runs before is_agent_turn)

Python dicts are modelled as insertion-ordered association lists
(List (String × _)); Python ints as Int (Nat where the source value is a
count/index); the injectable random source random.randint(1, s) as a
function Nat → Nat → Nat giving the value of the i-th draw of a run for a
die of s sides, with a counter threaded through every roll; a raised
ValueError as Except.error carrying the source's message string.
-/

namespace Thenvoi

/-! ### Decimal printing (Python str(int)) and digit parsing -/

/-- Decimal digit character for d < 10. -/
def digitChar (d : Nat) : Char := Char.ofNat (48 + d)

/-- Digit expansion driven by a fuel argument that strictly dominates the
number (structural recursion, so concrete values reduce in the kernel). -/
def natCharsAux : Nat → Nat → List Char
  | 0, n => [digitChar n]
  | fuel + 1, n =>
    if n < 10 then [digitChar n]
    else natCharsAux fuel (n / 10) ++ [digitChar (n % 10)]

/-- Decimal digits of a natural number, most significant first
(models Python str(n) for n ≥ 0). -/
def natChars (n : Nat) : List Char := natCharsAux n n

theorem natCharsAux_congr : ∀ f1 f2 n : Nat, n ≤ f1 → n ≤ f2 →
    natCharsAux f1 n = natCharsAux f2 n := by
  intro f1
  induction f1 with
  | zero =>
    intro f2 n h1 h2
    have hn : n = 0 := by omega
    subst hn
    cases f2 with
    | zero => rfl
    | succ f2 => simp only [natCharsAux, if_pos (by omega : (0 : Nat) < 10)]
  | succ f1 ih =>
    intro f2 n h1 h2
    cases f2 with
    | zero =>
      have hn : n = 0 := by omega
      subst hn
      simp only [natCharsAux, if_pos (by omega : (0 : Nat) < 10)]
    | succ f2 =>
      simp only [natCharsAux]
      by_cases h : n < 10
      · rw [if_pos h, if_pos h]
      · rw [if_neg h, if_neg h]
        have hdiv : n / 10 < n := Nat.div_lt_self (by omega) (by omega)
        rw [ih f2 (n / 10) (by omega) (by omega)]

/-- The recurrence str(n) satisfies — the shape of the former well-founded
definition, available as a rewrite. -/
theorem natChars_unfold (n : Nat) : natChars n =
    if n < 10 then [digitChar n] else natChars (n / 10) ++ [digitChar (n % 10)] := by
  unfold natChars
  cases n with
  | zero => simp [natCharsAux]
  | succ m =>
    simp only [natCharsAux]
    by_cases h : m + 1 < 10
    · rw [if_pos h, if_pos h]
    · rw [if_neg h, if_neg h]
      have hdiv : (m + 1) / 10 < m + 1 := Nat.div_lt_self (by omega) (by omega)
      rw [natCharsAux_congr m ((m + 1) / 10) ((m + 1) / 10) (by omega) (le_refl _)]

/-- Python str(k) for a signed integer. -/
def intChars (k : Int) : List Char :=
  if k < 0 then '-' :: natChars (-k).toNat else natChars k.toNat

def natStr (n : Nat) : String := String.mk (natChars n)

def intStr (k : Int) : String := String.mk (intChars k)

/-- Numeric value of a decimal digit character. -/
def digitVal (c : Char) : Nat := c.toNat - 48

/-- Value of a most-significant-first digit string (what int() computes on
the digit groups the regex in parse_dice_notation captured). -/
def digitsVal (ds : List Char) : Nat := ds.foldl (fun a c => 10 * a + digitVal c) 0

theorem digitChar_isDigit {d : Nat} (h : d < 10) : (digitChar d).isDigit = true := by
  interval_cases d <;> decide

theorem digitVal_digitChar {d : Nat} (h : d < 10) : digitVal (digitChar d) = d := by
  interval_cases d <;> decide

theorem natChars_ne_nil (n : Nat) : natChars n ≠ [] := by
  rw [natChars_unfold]
  split <;> simp

theorem natChars_all_digit (n : Nat) : ∀ c ∈ natChars n, c.isDigit = true := by
  induction n using Nat.strong_induction_on with
  | _ n ih =>
    rw [natChars_unfold]
    split
    · intro c hc
      simp only [List.mem_singleton] at hc
      subst hc
      exact digitChar_isDigit (by omega)
    · intro c hc
      rcases List.mem_append.mp hc with h1 | h2
      · exact ih (n / 10) (Nat.div_lt_self (by omega) (by omega)) c h1
      · simp only [List.mem_singleton] at h2
        subst h2
        exact digitChar_isDigit (Nat.mod_lt _ (by omega))

theorem digitsVal_append_singleton (ds : List Char) (c : Char) :
    digitsVal (ds ++ [c]) = 10 * digitsVal ds + digitVal c := by
  simp [digitsVal, List.foldl_append]

theorem digitsVal_natChars (n : Nat) : digitsVal (natChars n) = n := by
  induction n using Nat.strong_induction_on with
  | _ n ih =>
    rw [natChars_unfold]
    split
    · next h =>
      simp [digitsVal, digitVal_digitChar h]
    · next h =>
      rw [digitsVal_append_singleton, ih (n / 10) (Nat.div_lt_self (by omega) (by omega)),
        digitVal_digitChar (Nat.mod_lt _ (by omega))]
      omega

/-! ### Dice-notation parsing (parse_dice_notation in dice.py)

The source matches the regex `^(\d+)d(\d+)([+-]\d+)?$` against
`notation.lower().strip()` and then rejects num_dice < 1 and die_size < 1. -/

/-- Python str.lower() on the character list of a string. -/
def lowerChars (cs : List Char) : List Char := cs.map Char.toLower

/-- Python str.strip() on the character list of a string. -/
def stripChars (cs : List Char) : List Char :=
  ((cs.dropWhile Char.isWhitespace).reverse.dropWhile Char.isWhitespace).reverse

/-- The regex match `^(\d+)d(\d+)([+-]\d+)?$`: (num_dice, die_size, modifier),
or none when the shape does not match: a nonempty digit group, the letter d,
a nonempty digit group, then nothing or a sign and a nonempty digit group. -/
def parseDiceCore (cs : List Char) : Option (Nat × Nat × Int) :=
  let d1 := cs.takeWhile Char.isDigit
  if d1.isEmpty then none else
  match cs.dropWhile Char.isDigit with
  | [] => none
  | c :: r2 =>
    if c != 'd' then none else
    let d2 := r2.takeWhile Char.isDigit
    if d2.isEmpty then none else
    match r2.dropWhile Char.isDigit with
    | [] => some (digitsVal d1, digitsVal d2, (0 : Int))
    | c2 :: r4 =>
      if r4.isEmpty || !r4.all Char.isDigit then none
      else if c2 == '+' then some (digitsVal d1, digitsVal d2, (digitsVal r4 : Int))
      else if c2 == '-' then some (digitsVal d1, digitsVal d2, -(digitsVal r4 : Int))
      else none

/-- parse_dice_notation (dice.py): parse "NdM", "NdM+K" or "NdM-K"
(case-insensitive, surrounding whitespace stripped), raising ValueError —
modelled as Except.error with the source's message — on any other shape and
on num_dice < 1 or die_size < 1. -/
def parseDice (s : String) : Except String (Nat × Nat × Int) :=
  match parseDiceCore (stripChars (lowerChars s.data)) with
  | none => .error ("Invalid dice notation: " ++ s)
  | some (num_dice, die_size, modifier) =>
    if num_dice < 1 then .error ("Number of dice must be at least 1: " ++ s)
    else if die_size < 1 then .error ("Die size must be at least 1: " ++ s)
    else .ok (num_dice, die_size, modifier)

/-- The f-string "{n}d{m}+{k}" / "{n}d{m}{k}" the source builds when it
reassembles a notation (roll_damage and the convenience constructors):
str(n), "d", str(m), then "+" and str(k) for k ≥ 0 or str(k) for k < 0. -/
def diceStr (n m : Nat) (k : Int) : String :=
  if 0 ≤ k then String.mk (natChars n ++ 'd' :: (natChars m ++ '+' :: natChars k.toNat))
  else String.mk (natChars n ++ 'd' :: (natChars m ++ '-' :: natChars (-k).toNat))

/-- damage_notation.split("+")[0].split("-")[0] from resolve_attack
(the dice portion of a notation, the modifier cut off). -/
def stripMod (s : String) : String :=
  String.mk ((s.data.takeWhile (fun c => c != '+')).takeWhile (fun c => c != '-'))

/-- A string with no whitespace and no uppercase: lower() and strip() leave
it unchanged.  Every notation the engine builds internally is of this form. -/
def charNormal (c : Char) : Bool := !c.isWhitespace && (c.toLower == c)

def strNormal (s : String) : Bool := s.data.all charNormal

/-! ### List helper lemmas for the parser -/

theorem takeWhile_break {α} (p : α → Bool) (xs : List α) (y : α) (ys : List α)
    (hxs : ∀ c ∈ xs, p c = true) (hy : p y = false) :
    (xs ++ y :: ys).takeWhile p = xs := by
  induction xs with
  | nil => simp [List.takeWhile_cons, hy]
  | cons x xs ih =>
    have hx : p x = true := hxs x (by simp)
    have ih' := ih (fun c hc => hxs c (by simp [hc]))
    simp [List.takeWhile_cons, hx, ih']

theorem dropWhile_break {α} (p : α → Bool) (xs : List α) (y : α) (ys : List α)
    (hxs : ∀ c ∈ xs, p c = true) (hy : p y = false) :
    (xs ++ y :: ys).dropWhile p = y :: ys := by
  induction xs with
  | nil => simp [List.dropWhile_cons, hy]
  | cons x xs ih =>
    have hx : p x = true := hxs x (by simp)
    have ih' := ih (fun c hc => hxs c (by simp [hc]))
    simp [List.dropWhile_cons, hx, ih']

theorem takeWhile_all {α} (p : α → Bool) (xs : List α) (hxs : ∀ c ∈ xs, p c = true) :
    xs.takeWhile p = xs := by
  induction xs with
  | nil => rfl
  | cons x xs ih =>
    have hx : p x = true := hxs x (by simp)
    have ih' := ih (fun c hc => hxs c (by simp [hc]))
    simp [List.takeWhile_cons, hx, ih']

theorem dropWhile_all {α} (p : α → Bool) (xs : List α) (hxs : ∀ c ∈ xs, p c = true) :
    xs.dropWhile p = [] := by
  induction xs with
  | nil => rfl
  | cons x xs ih =>
    have hx : p x = true := hxs x (by simp)
    have ih' := ih (fun c hc => hxs c (by simp [hc]))
    simp [List.dropWhile_cons, hx, ih']

theorem dropWhile_none {α} (p : α → Bool) (xs : List α) (hxs : ∀ c ∈ xs, p c = false) :
    xs.dropWhile p = xs := by
  cases xs with
  | nil => rfl
  | cons x xs => simp [List.dropWhile_cons, hxs x (by simp)]

/-- A digit character differs from any non-digit character. -/
theorem digit_bne {c b : Char} (hb : b.isDigit = false) (h : c.isDigit = true) :
    (c != b) = true := by
  rcases eq_or_ne c b with rfl | hne
  · rw [h] at hb; cases hb
  · exact bne_iff_ne.mpr hne

theorem charNormal_digit {d : Nat} (h : d < 10) : charNormal (digitChar d) = true := by
  interval_cases d <;> decide

theorem natChars_normal (n : Nat) : ∀ c ∈ natChars n, charNormal c = true := by
  induction n using Nat.strong_induction_on with
  | _ n ih =>
    rw [natChars_unfold]
    split
    · intro c hc
      simp only [List.mem_singleton] at hc
      subst hc
      exact charNormal_digit (by omega)
    · intro c hc
      rcases List.mem_append.mp hc with h1 | h2
      · exact ih (n / 10) (Nat.div_lt_self (by omega) (by omega)) c h1
      · simp only [List.mem_singleton] at h2
        subst h2
        exact charNormal_digit (Nat.mod_lt _ (by omega))

/-- lower() then strip() leave a normal character list unchanged. -/
theorem preprocess_normal (cs : List Char) (h : ∀ c ∈ cs, charNormal c = true) :
    stripChars (lowerChars cs) = cs := by
  have hlow : lowerChars cs = cs := by
    unfold lowerChars
    have hid : ∀ c ∈ cs, Char.toLower c = id c := by
      intro c hc
      have := h c hc
      unfold charNormal at this
      exact eq_of_beq (by simp only [Bool.and_eq_true] at this; exact this.2)
    rw [List.map_congr_left hid, List.map_id]
  have hws : ∀ c ∈ cs, c.isWhitespace = false := by
    intro c hc
    have := h c hc
    unfold charNormal at this
    simp only [Bool.and_eq_true, Bool.not_eq_true'] at this
    exact this.1
  unfold stripChars
  rw [hlow, dropWhile_none _ _ hws,
    dropWhile_none _ _ (fun c hc => hws c (List.mem_reverse.mp hc)), List.reverse_reverse]

theorem not_digit_d : ('d').isDigit = false := by decide

theorem not_digit_plus : ('+').isDigit = false := by decide

theorem not_digit_minus : ('-').isDigit = false := by decide

/-- parseDiceCore on a digits-d-digits-sign-digits shape. -/
theorem parseDiceCore_sign (d1 d2 r4 : List Char) (sgn : Char)
    (hd1 : ∀ c ∈ d1, c.isDigit = true) (hd2 : ∀ c ∈ d2, c.isDigit = true)
    (hr4 : ∀ c ∈ r4, c.isDigit = true)
    (n1 : d1 ≠ []) (n2 : d2 ≠ []) (n4 : r4 ≠ [])
    (hsgn : sgn.isDigit = false) :
    parseDiceCore (d1 ++ 'd' :: (d2 ++ sgn :: r4)) =
      (if sgn == '+' then some (digitsVal d1, digitsVal d2, (digitsVal r4 : Int))
       else if sgn == '-' then some (digitsVal d1, digitsVal d2, -(digitsVal r4 : Int))
       else none) := by
  have e1 : (d1.isEmpty) = false := by simp [List.isEmpty_iff, n1]
  have e2 : (d2.isEmpty) = false := by simp [List.isEmpty_iff, n2]
  have e4 : (r4.isEmpty) = false := by simp [List.isEmpty_iff, n4]
  simp only [parseDiceCore]
  rw [takeWhile_break _ _ _ _ hd1 not_digit_d, dropWhile_break _ _ _ _ hd1 not_digit_d]
  simp only [e1, Bool.false_eq_true, if_false, bne_self_eq_false]
  rw [takeWhile_break _ _ _ _ hd2 hsgn, dropWhile_break _ _ _ _ hd2 hsgn]
  have ha : r4.all Char.isDigit = true := List.all_eq_true.mpr hr4
  simp [e2, e4, ha]

/-- parseDiceCore on a digits-d-digits shape (no modifier group). -/
theorem parseDiceCore_plain (d1 d2 : List Char)
    (hd1 : ∀ c ∈ d1, c.isDigit = true) (hd2 : ∀ c ∈ d2, c.isDigit = true)
    (n1 : d1 ≠ []) (n2 : d2 ≠ []) :
    parseDiceCore (d1 ++ 'd' :: d2) = some (digitsVal d1, digitsVal d2, (0 : Int)) := by
  have e1 : (d1.isEmpty) = false := by simp [List.isEmpty_iff, n1]
  have e2 : (d2.isEmpty) = false := by simp [List.isEmpty_iff, n2]
  simp only [parseDiceCore]
  rw [takeWhile_break _ _ _ _ hd1 not_digit_d, dropWhile_break _ _ _ _ hd1 not_digit_d]
  simp only [e1, Bool.false_eq_true, if_false, bne_self_eq_false]
  rw [takeWhile_all _ _ hd2, dropWhile_all _ _ hd2]
  simp only [e2, Bool.false_eq_true, if_false]

/-- Reassembled notations parse back to the triple they were built from:
str(n) + "d" + str(m) + sign/modifier is in the regex language and the
digit groups evaluate to n, m and k. -/
theorem parseDice_diceStr (n m : Nat) (k : Int) (hn : 1 ≤ n) (hm : 1 ≤ m) :
    parseDice (diceStr n m k) = .ok (n, m, k) := by
  have hd1 : ∀ c ∈ natChars n, c.isDigit = true := natChars_all_digit n
  have hd2 : ∀ c ∈ natChars m, c.isDigit = true := natChars_all_digit m
  have hg1 : ¬ n < 1 := by omega
  have hg2 : ¬ m < 1 := by omega
  unfold diceStr
  split
  · next hk =>
    have hpre : stripChars (lowerChars
        (natChars n ++ 'd' :: (natChars m ++ '+' :: natChars k.toNat))) =
        natChars n ++ 'd' :: (natChars m ++ '+' :: natChars k.toNat) := by
      apply preprocess_normal
      intro c hc
      simp only [List.mem_append, List.mem_cons] at hc
      rcases hc with h1 | rfl | h2 | rfl | h3
      · exact natChars_normal n c h1
      · decide
      · exact natChars_normal m c h2
      · decide
      · exact natChars_normal _ c h3
    unfold parseDice
    rw [show (String.mk (natChars n ++ 'd' :: (natChars m ++ '+' :: natChars k.toNat))).data
        = natChars n ++ 'd' :: (natChars m ++ '+' :: natChars k.toNat) from rfl, hpre,
      parseDiceCore_sign _ _ _ _ hd1 hd2 (natChars_all_digit _)
        (natChars_ne_nil n) (natChars_ne_nil m) (natChars_ne_nil _) not_digit_plus]
    simp [digitsVal_natChars, Int.toNat_of_nonneg hk, hg1, hg2]
  · next hk =>
    have hpre : stripChars (lowerChars
        (natChars n ++ 'd' :: (natChars m ++ '-' :: natChars (-k).toNat))) =
        natChars n ++ 'd' :: (natChars m ++ '-' :: natChars (-k).toNat) := by
      apply preprocess_normal
      intro c hc
      simp only [List.mem_append, List.mem_cons] at hc
      rcases hc with h1 | rfl | h2 | rfl | h3
      · exact natChars_normal n c h1
      · decide
      · exact natChars_normal m c h2
      · decide
      · exact natChars_normal _ c h3
    unfold parseDice
    rw [show (String.mk (natChars n ++ 'd' :: (natChars m ++ '-' :: natChars (-k).toNat))).data
        = natChars n ++ 'd' :: (natChars m ++ '-' :: natChars (-k).toNat) from rfl, hpre,
      parseDiceCore_sign _ _ _ _ hd1 hd2 (natChars_all_digit _)
        (natChars_ne_nil n) (natChars_ne_nil m) (natChars_ne_nil _) not_digit_minus]
    simp [digitsVal_natChars, Int.toNat_of_nonneg (by omega : (0 : Int) ≤ -k), hg1, hg2]

theorem bne_plus_of_digit {c : Char} (h : c.isDigit = true) : (c != '+') = true :=
  digit_bne (by decide) h

theorem bne_minus_of_digit {c : Char} (h : c.isDigit = true) : (c != '-') = true :=
  digit_bne (by decide) h

/-- parseDice on an explicitly assembled digits-d-digits string. -/
theorem parseDice_mk_plain (d1 d2 : List Char)
    (hd1 : ∀ c ∈ d1, c.isDigit = true) (hd2 : ∀ c ∈ d2, c.isDigit = true)
    (n1 : d1 ≠ []) (n2 : d2 ≠ [])
    (hnorm : ∀ c ∈ d1 ++ 'd' :: d2, charNormal c = true)
    (hg1 : ¬ digitsVal d1 < 1) (hg2 : ¬ digitsVal d2 < 1) :
    parseDice (String.mk (d1 ++ 'd' :: d2)) = .ok (digitsVal d1, digitsVal d2, 0) := by
  unfold parseDice
  rw [show (String.mk (d1 ++ 'd' :: d2)).data = d1 ++ 'd' :: d2 from rfl,
    preprocess_normal _ hnorm, parseDiceCore_plain _ _ hd1 hd2 n1 n2]
  simp [hg1, hg2]

/-- Cutting the modifier off a parseable normal-form notation with
split("+")[0].split("-")[0] yields the same dice with modifier 0 —
the fact resolve_attack's critical-hit branch relies on. -/
theorem parseDice_stripMod {s : String} {n m : Nat} {k : Int}
    (hs : strNormal s = true) (h : parseDice s = .ok (n, m, k)) :
    parseDice (stripMod s) = .ok (n, m, 0) := by
  have hnorm : ∀ c ∈ s.data, charNormal c = true := by
    simpa [strNormal, List.all_eq_true] using hs
  have hpre : stripChars (lowerChars s.data) = s.data := preprocess_normal _ hnorm
  unfold parseDice at h
  rw [hpre] at h
  cases hp : parseDiceCore s.data with
  | none => rw [hp] at h; simp at h
  | some t =>
    obtain ⟨n', m', k'⟩ := t
    rw [hp] at h
    by_cases hg1 : n' < 1
    · simp [hg1] at h
    by_cases hg2 : m' < 1
    · simp [hg1, hg2] at h
    simp only [hg1, hg2, if_false] at h
    obtain ⟨rfl, rfl, rfl⟩ : n' = n ∧ m' = m ∧ k' = k := by
      simpa using h
    -- dissect the successful core parse, keeping the original equation
    have hp0 := hp
    simp only [parseDiceCore] at hp
    set d1 := s.data.takeWhile Char.isDigit with hd1def
    have hd1 : ∀ c ∈ d1, c.isDigit = true := fun c hc => List.mem_takeWhile_imp hc
    by_cases he1 : d1.isEmpty
    · simp [he1] at hp
    simp only [he1, Bool.false_eq_true, if_false] at hp
    have n1 : d1 ≠ [] := by simpa [List.isEmpty_iff] using he1
    cases hr1 : s.data.dropWhile Char.isDigit with
    | nil => rw [hr1] at hp; simp at hp
    | cons c r2 =>
      rw [hr1] at hp
      by_cases hcd : (c != 'd') = true
      · simp [hcd] at hp
      simp only [hcd, Bool.false_eq_true, if_false] at hp
      have hc : c = 'd' := by simpa [bne_iff_ne] using hcd
      subst hc
      set d2 := r2.takeWhile Char.isDigit with hd2def
      have hd2 : ∀ c ∈ d2, c.isDigit = true := fun c hc => List.mem_takeWhile_imp hc
      by_cases he2 : d2.isEmpty
      · simp [he2] at hp
      simp only [he2, Bool.false_eq_true, if_false] at hp
      have n2 : d2 ≠ [] := by simpa [List.isEmpty_iff] using he2
      have hsdata : s.data = d1 ++ 'd' :: r2 := by
        rw [hd1def, ← hr1, List.takeWhile_append_dropWhile]
      have hr2 : r2 = d2 ++ r2.dropWhile Char.isDigit := by
        rw [hd2def, List.takeWhile_append_dropWhile]
      cases hr3 : r2.dropWhile Char.isDigit with
      | nil =>
        -- no modifier group: split() leaves the notation unchanged, k = 0
        rw [hr3] at hp
        rw [hr3, List.append_nil] at hr2
        have hinj := hp
        simp only [Option.some.injEq, Prod.mk.injEq] at hinj
        obtain ⟨hn, hm, hk⟩ := hinj
        have hstrip : stripMod s = s := by
          unfold stripMod
          have hall1 : ∀ x ∈ s.data, (x != '+') = true := by
            intro x hx
            rw [hsdata, hr2] at hx
            rcases List.mem_append.mp hx with h1 | h2
            · exact bne_plus_of_digit (hd1 x h1)
            · rcases List.mem_cons.mp h2 with rfl | h3
              · decide
              · exact bne_plus_of_digit (hd2 x h3)
          have hall2 : ∀ x ∈ s.data, (x != '-') = true := by
            intro x hx
            rw [hsdata, hr2] at hx
            rcases List.mem_append.mp hx with h1 | h2
            · exact bne_minus_of_digit (hd1 x h1)
            · rcases List.mem_cons.mp h2 with rfl | h3
              · decide
              · exact bne_minus_of_digit (hd2 x h3)
          rw [takeWhile_all _ _ hall1, takeWhile_all _ _ hall2]
        rw [hstrip]
        unfold parseDice
        rw [hpre, hp0]
        simp [hg1, hg2, ← hk]
      | cons c2 r4 =>
        rw [hr3] at hp
        by_cases hguard : (r4.isEmpty || !r4.all Char.isDigit) = true
        · simp [hguard] at hp
        simp only [hguard, Bool.false_eq_true, if_false] at hp
        have hr4 : ∀ c ∈ r4, c.isDigit = true := by
          by_cases hall : r4.all Char.isDigit = true
          · exact fun c hc => List.all_eq_true.mp hall c hc
          · exfalso
            apply hguard
            have hf : r4.all Char.isDigit = false := by
              cases hb : r4.all Char.isDigit
              · rfl
              · exact absurd hb hall
            simp [hf]
        have hsplit : s.data = (d1 ++ 'd' :: d2) ++ c2 :: r4 := by
          rw [hsdata, hr2, hr3]
          simp [List.append_assoc]
        have hnorm2 : ∀ x ∈ d1 ++ 'd' :: d2, charNormal x = true := by
          intro x hx
          apply hnorm
          rw [hsplit]
          exact List.mem_append.mpr (Or.inl hx)
        have hall1 : ∀ x ∈ d1 ++ 'd' :: d2, (x != '+') = true := by
          intro x hx
          rcases List.mem_append.mp hx with h1 | h2
          · exact bne_plus_of_digit (hd1 x h1)
          · rcases List.mem_cons.mp h2 with rfl | h3
            · decide
            · exact bne_plus_of_digit (hd2 x h3)
        have hall2 : ∀ x ∈ d1 ++ 'd' :: d2, (x != '-') = true := by
          intro x hx
          rcases List.mem_append.mp hx with h1 | h2
          · exact bne_minus_of_digit (hd1 x h1)
          · rcases List.mem_cons.mp h2 with rfl | h3
            · decide
            · exact bne_minus_of_digit (hd2 x h3)
        by_cases hc2 : (c2 == '+') = true
        · have hc2' : c2 = '+' := eq_of_beq hc2
          subst hc2'
          simp only [hc2, if_true] at hp
          have hinj := hp
          simp only [Option.some.injEq, Prod.mk.injEq] at hinj
          obtain ⟨hn, hm, hk⟩ := hinj
          have hstrip : stripMod s = String.mk (d1 ++ 'd' :: d2) := by
            unfold stripMod
            rw [hsplit, takeWhile_break _ _ _ _ hall1 (by decide),
              takeWhile_all _ _ hall2]
          rw [hstrip, ← hn, ← hm]
          exact parseDice_mk_plain d1 d2 hd1 hd2 n1 n2 hnorm2
            (by rw [hn]; exact hg1) (by rw [hm]; exact hg2)
        · have hc2m : (c2 == '-') = true := by
            by_contra hcm
            simp [hc2, hcm] at hp
          have hc2' : c2 = '-' := eq_of_beq hc2m
          subst hc2'
          simp only [hc2, Bool.false_eq_true, if_false, hc2m, if_true] at hp
          have hinj := hp
          simp only [Option.some.injEq, Prod.mk.injEq] at hinj
          obtain ⟨hn, hm, hk⟩ := hinj
          have hplus : ∀ x ∈ (d1 ++ 'd' :: d2) ++ '-' :: r4, (x != '+') = true := by
            intro x hx
            rcases List.mem_append.mp hx with h1 | h2
            · exact hall1 x h1
            · rcases List.mem_cons.mp h2 with rfl | h3
              · decide
              · exact bne_plus_of_digit (hr4 x h3)
          have hstrip : stripMod s = String.mk (d1 ++ 'd' :: d2) := by
            unfold stripMod
            rw [hsplit, takeWhile_all _ _ hplus,
              takeWhile_break _ _ _ _ hall2 (by decide)]
          rw [hstrip, ← hn, ← hm]
          exact parseDice_mk_plain d1 d2 hd1 hd2 n1 n2 hnorm2
            (by rw [hn]; exact hg1) (by rw [hm]; exact hg2)

/-! ### The dice engine (dice.py) -/

/-- The injectable random source: `rand i s` is the value the i-th call to
the random function of a run returns for arguments (1, s).  The real
source draws random.randint(1, s) or a caller-supplied rand_func. -/
abbrev Rand := Nat → Nat → Nat

/-- Dice drawn in [1, s] — what random.randint(1, s) guarantees. -/
def RandInRange (rand : Rand) : Prop := ∀ i s, 1 ≤ rand i s ∧ rand i s ≤ s

/-- The list comprehension [roll_single_die(die_size) for _ in range(n)],
consuming n consecutive draws; returns the rolls and the next counter. -/
def rollList (rand : Rand) (ctr n die_size : Nat) : List Nat × Nat :=
  match n with
  | 0 => ([], ctr)
  | nn + 1 =>
    let r := rand ctr die_size
    let rest := rollList rand (ctr + 1) nn die_size
    (r :: rest.1, rest.2)

/-- DiceRollResult (dice.py).  The source field `notation` is called `nota`
here; `kept_roll` is None unless advantage/disadvantage doubled the roll. -/
structure DiceRollResult where
  rolls : List Nat
  modifier : Int
  total : Int
  purpose : String
  roller : String
  advantage_used : Bool
  disadvantage_used : Bool
  critical : Bool
  fumble : Bool
  nota : String
  kept_roll : Option Nat
deriving DecidableEq

/-- roll_dice (dice.py): parse the notation, apply advantage/disadvantage
only for a single d20 and only when not both are requested, roll, detect
critical/fumble on the kept (or sole) d20 value. -/
def roll_dice (nota purpose roller : String) (advantage disadvantage : Bool)
    (rand : Rand) (ctr : Nat) : Except String (DiceRollResult × Nat) :=
  match parseDice nota with
  | .error e => .error e
  | .ok (num_dice, die_size, modifier) =>
    let is_d20 := die_size == 20 && num_dice == 1
    let actual_advantage := advantage && is_d20 && !disadvantage
    let actual_disadvantage := disadvantage && is_d20 && !advantage
    let rolled : List Nat × Option Nat × Int × Nat :=
      if actual_advantage || actual_disadvantage then
        let roll1 := rand ctr die_size
        let roll2 := rand (ctr + 1) die_size
        let kept := if actual_advantage then max roll1 roll2 else min roll1 roll2
        ([roll1, roll2], some kept, (kept : Int), ctr + 2)
      else
        let rl := rollList rand ctr num_dice die_size
        (rl.1, none, ((rl.1.sum : Nat) : Int), rl.2)
    let rolls := rolled.1
    let kept_roll := rolled.2.1
    let total := rolled.2.2.1 + modifier
    let ctr' := rolled.2.2.2
    let check_roll := match kept_roll with
      | some kr => kr
      | none => rolls.headD 0
    let critical := is_d20 && (check_roll == 20)
    let fumble := is_d20 && (check_roll == 1)
    .ok ({ rolls := rolls, modifier := modifier, total := total, purpose := purpose,
           roller := roller, advantage_used := actual_advantage,
           disadvantage_used := actual_disadvantage, critical := critical,
           fumble := fumble, nota := nota, kept_roll := kept_roll }, ctr')

/-- check_hit (dice.py): a critical always hits; otherwise compare to AC. -/
def check_hit (attack_total : Int) (target_ac : Int) (is_critical : Bool) : Bool :=
  if is_critical then true else decide (attack_total ≥ target_ac)

/-- Python str.capitalize(): first character upper-cased, the rest lowered. -/
def pyCapitalize (s : String) : String :=
  match s.data with
  | [] => ""
  | c :: cs => String.mk (c.toUpper :: cs.map Char.toLower)

/-- roll_damage (dice.py): on a critical the die count is doubled — and only
the die count — before the notation is reassembled and rolled. -/
def roll_damage (roller damage_dice damage_type : String) (is_critical : Bool)
    (rand : Rand) (ctr : Nat) : Except String (DiceRollResult × Nat) :=
  match parseDice damage_dice with
  | .error e => .error e
  | .ok (num_dice, die_size, modifier) =>
    let nota := if is_critical then diceStr (2 * num_dice) die_size modifier else damage_dice
    let purpose := if damage_type != "damage" then pyCapitalize damage_type ++ " Damage"
      else "Damage"
    roll_dice nota purpose roller false false rand ctr

/-! ### The data model (models.py)

Fields that no claim and no embedded operation reads (classes, races,
inventories, spell tables, narrative-progress flags, NPC details, the
turn-gate timestamp) are omitted; every field an embedded operation
touches is present. -/

/-- CharacterStats (models.py): six ability scores. -/
structure CharacterStats where
  strength : Int := 10
  dexterity : Int := 10
  constitution : Int := 10
  intelligence : Int := 10
  wisdom : Int := 10
  charisma : Int := 10
deriving DecidableEq

/-- CharacterStats.get_modifier: map abbreviations to full names, read the
stat (default 10 for an unknown name), and floor-divide (value − 10) by 2. -/
def CharacterStats.get_modifier (st : CharacterStats) (stat : String) : Int :=
  let full_name :=
    if stat == "str" then "strength" else if stat == "dex" then "dexterity"
    else if stat == "con" then "constitution" else if stat == "int" then "intelligence"
    else if stat == "wis" then "wisdom" else if stat == "cha" then "charisma" else stat
  let value :=
    if full_name == "strength" then st.strength
    else if full_name == "dexterity" then st.dexterity
    else if full_name == "constitution" then st.constitution
    else if full_name == "intelligence" then st.intelligence
    else if full_name == "wisdom" then st.wisdom
    else if full_name == "charisma" then st.charisma
    else 10
  (value - 10).fdiv 2

/-- CharacterState (models.py), restricted to the fields the engine reads. -/
structure CharacterState where
  name : String
  hp : Int
  max_hp : Int
  ac : Int
  stats : CharacterStats := {}
  proficiency_bonus : Int := 2
  conditions : List String := []
deriving DecidableEq

/-- is_alive (models.py): HP > 0. -/
def CharacterState.is_alive (c : CharacterState) : Bool := decide (0 < c.hp)

/-- is_unconscious (models.py): HP = 0. -/
def CharacterState.is_unconscious (c : CharacterState) : Bool := decide (c.hp = 0)

/-- NPCState (models.py): narrative-only actor sharing the store. -/
structure NPCState where
  name : String
  state : String := "alive"
  location : String := "unknown"
  disposition : String := "neutral"
deriving DecidableEq

/-- EnemyState (models.py), restricted to the fields the engine reads
(the immunity/resistance lists are data-only and never consulted). -/
structure EnemyState where
  name : String := "Enemy"
  hp : Int
  max_hp : Int
  ac : Int
  state : String := "alive"
deriving DecidableEq

/-- is_alive (models.py): state == "alive" AND hp > 0. -/
def EnemyState.is_alive (e : EnemyState) : Bool :=
  e.state == "alive" && decide (0 < e.hp)

/-- The per-combatant snapshot stored in combat.combatants at combat start. -/
structure CombatantSnap where
  initiative : Int
  hp : Int
  max_hp : Int
  ac : Int
  is_enemy : Bool
  conditions : List String
deriving DecidableEq

/-- CombatState (models.py). -/
structure CombatState where
  active : Bool := false
  round : Nat := 0
  turn_order : List String := []
  current_turn_index : Nat := 0
  combatants : List (String × CombatantSnap) := []
deriving DecidableEq

/-- TurnState (models.py) without the timestamp field (staleness detection
is left to callers and no embedded operation reads it). -/
structure TurnState where
  active_agent : Option String := none
  mode : String := "dm_control"
  addressed_agents : List String := []
deriving DecidableEq

/-- TurnState.is_agent_turn (models.py): direct match on active_agent, or
free_form mode with the agent among the addressed ones. -/
def TurnState.is_agent_turn (ts : TurnState) (agent_id : String) : Bool :=
  if ts.active_agent == some agent_id then true
  else if ts.mode == "free_form" && ts.addressed_agents.contains agent_id then true
  else false

/-- TurnState.is_human_turn (models.py). -/
def TurnState.is_human_turn (ts : TurnState) : Bool :=
  ts.active_agent == some "human"

/-- The turn-state fallback of PlayerAgent.should_respond (player_agent.py,
and identically NPCAgent.should_respond): a non-human participant first
yields when it is the human's turn, then consults is_agent_turn. -/
def should_act (ts : TurnState) (agent_id : String) : Bool :=
  if ts.is_human_turn then false else ts.is_agent_turn agent_id

/-- WorldState (models.py), restricted to the fields the engine reads.
The narrative-only fields (game_id, chapter, scene, progress flags,
session notes) are omitted. -/
structure WorldState where
  combat : CombatState := {}
  turn_state : TurnState := {}
  characters : List (String × CharacterState) := []
  npcs : List (String × NPCState) := []
  enemies : List (String × EnemyState) := []
deriving DecidableEq

/-! ### The world-state store (world_state.py) -/

/-- Dict assignment d[k] = v for a key already present: the entry keeps its
position and gets the new value. -/
def setEntry {α : Type} (l : List (String × α)) (k : String) (v : α) :
    List (String × α) :=
  l.map (fun p => if p.1 == k then (k, v) else p)

/-- Dict deletion del d[k]: drop the entry with the key. -/
def delKey {α : Type} (l : List (String × α)) (k : String) : List (String × α) :=
  l.eraseP (fun p => p.1 == k)

/-- WorldStateManager.update_hp (world_state.py): characters checked first,
then enemies; the new HP is clamped to [0, max_hp]; a character crossing
to 0 gains "unconscious" (no duplicate), a character ending above 0 loses
"unconscious" if present; an enemy crossing to 0 becomes "dead"; an
unknown id raises ValueError (modelled as Except.error). -/
def update_hp (w : WorldState) (entity_id : String) (delta : Int) :
    Except String (Int × WorldState) :=
  match w.characters.lookup entity_id with
  | some char =>
    let old_hp := char.hp
    let new_hp := max 0 (min char.max_hp (char.hp + delta))
    let conds1 :=
      if new_hp == 0 && decide (0 < old_hp) then
        (if char.conditions.contains "unconscious" then char.conditions
         else char.conditions ++ ["unconscious"])
      else char.conditions
    let conds2 :=
      if decide (0 < new_hp) && conds1.contains "unconscious" then
        conds1.erase "unconscious"
      else conds1
    let char' := { char with hp := new_hp, conditions := conds2 }
    .ok (new_hp, { w with characters := setEntry w.characters entity_id char' })
  | none =>
    match w.enemies.lookup entity_id with
    | some enemy =>
      let old_hp := enemy.hp
      let new_hp := max 0 (min enemy.max_hp (enemy.hp + delta))
      let state' := if new_hp == 0 && decide (0 < old_hp) then "dead" else enemy.state
      let enemy' := { enemy with hp := new_hp, state := state' }
      .ok (new_hp, { w with enemies := setEntry w.enemies entity_id enemy' })
    | none => .error ("Entity not found: " ++ entity_id)

/-- WorldStateManager.remove_enemy (world_state.py). -/
def remove_enemy (w : WorldState) (enemy_id : String) : WorldState × Bool :=
  if (w.enemies.lookup enemy_id).isSome then
    ({ w with enemies := delKey w.enemies enemy_id }, true)
  else (w, false)

/-- A sequence of update_hp calls, each raised error caught and the state
left as it was (what the tool wrapper world_state_tool does). -/
def applyUpdates (w : WorldState) (ops : List (String × Int)) : WorldState :=
  ops.foldl (fun acc op =>
    match update_hp acc op.1 op.2 with
    | .ok (_, w') => w'
    | .error _ => acc) w

/-! ### The combat engine (combat.py) -/

/-- An entry of ENEMY_STATS (combat.py). -/
structure EnemyTemplate where
  name : String
  hp : Int
  ac : Int
  attack_bonus : Int
  damage : String
  damage_type : String
deriving DecidableEq

/-- ENEMY_STATS (combat.py), in the source's dict order. -/
def ENEMY_STATS : List (String × EnemyTemplate) :=
  [("goblin", ⟨"Goblin", 7, 15, 4, "1d6+2", "slashing"⟩),
   ("bugbear", ⟨"Bugbear", 27, 16, 4, "2d8+2", "bludgeoning"⟩),
   ("wolf", ⟨"Wolf", 11, 13, 4, "2d4+2", "piercing"⟩)]

/-- An entry of WEAPONS (combat.py).  sacred_flame additionally carries a
"save" key in the source; nothing the embedded operations read. -/
structure WeaponInfo where
  damage : String
  ability : String
  damage_type : String
deriving DecidableEq

/-- WEAPONS (combat.py), in the source's dict order. -/
def WEAPONS : List (String × WeaponInfo) :=
  [("longsword", ⟨"1d8", "str", "slashing"⟩),
   ("shortsword", ⟨"1d6", "dex", "piercing"⟩),
   ("shortbow", ⟨"1d6", "dex", "piercing"⟩),
   ("mace", ⟨"1d6", "str", "bludgeoning"⟩),
   ("scimitar", ⟨"1d6", "dex", "slashing"⟩),
   ("dagger", ⟨"1d4", "dex", "piercing"⟩),
   ("handaxe", ⟨"1d6", "str", "slashing"⟩),
   ("sacred_flame", ⟨"1d8", "wis", "radiant"⟩)]

/-- Python "pat in s" on strings: pat occurs as a contiguous substring. -/
def strContains (s pat : String) : Bool := decide (pat.data <:+: s.data)

/-- The archetype lookup both enemy branches use: the first ENEMY_STATS key
that occurs in attacker_id.lower(). -/
def findArchetype (attacker_id : String) : Option (String × EnemyTemplate) :=
  ENEMY_STATS.find? (fun p => strContains (String.mk (lowerChars attacker_id.data)) p.1)

/-- get_attack_bonus (combat.py): enemies use the matched archetype's bonus
(default 4); characters use weapon-ability modifier + proficiency; an
unknown attacker gets 0. -/
def get_attack_bonus (attacker_id weapon : String) (w : WorldState) : Int :=
  match w.enemies.lookup attacker_id with
  | some _ =>
    match findArchetype attacker_id with
    | some p => p.2.attack_bonus
    | none => 4
  | none =>
    match w.characters.lookup attacker_id with
    | none => 0
    | some char =>
      let ability := match WEAPONS.lookup weapon with
        | some wi => wi.ability
        | none => "str"
      char.stats.get_modifier ability + char.proficiency_bonus

/-- get_damage_dice (combat.py): enemies use the matched archetype's damage
(default "1d6+2" slashing); characters append the signed ability modifier
to the weapon's base dice (default weapon "1d6"/str/slashing); an unknown
attacker gets ("1d6", "slashing"). -/
def get_damage_dice (attacker_id weapon : String) (w : WorldState) : String × String :=
  match w.enemies.lookup attacker_id with
  | some _ =>
    match findArchetype attacker_id with
    | some p => (p.2.damage, p.2.damage_type)
    | none => ("1d6+2", "slashing")
  | none =>
    match w.characters.lookup attacker_id with
    | none => ("1d6", "slashing")
    | some char =>
      let wi := (WEAPONS.lookup weapon).getD ⟨"1d6", "str", "slashing"⟩
      let ability_mod := char.stats.get_modifier wi.ability
      let dn := if 0 ≤ ability_mod then wi.damage ++ "+" ++ intStr ability_mod
        else wi.damage ++ intStr ability_mod
      (dn, wi.damage_type)

/-- Python str(x) for the Option Nat attack_roll (None prints as "None"). -/
def optNatStr (o : Option Nat) : String :=
  match o with
  | some v => natStr v
  | none => "None"

/-- AttackResult (combat.py).  The source annotates attack_roll as int, but
the value actually stored is rolls[0] or kept_roll, and kept_roll is None
whenever advantage/disadvantage did not double the roll — so the field is
an Option here. -/
structure AttackResult where
  attacker : String
  target : String
  attack_roll : Option Nat
  attack_total : Int
  target_ac : Int
  hit : Bool
  critical : Bool
  fumble : Bool
  damage : Int
  damage_type : String
  target_hp_before : Int
  target_hp_after : Int
  target_defeated : Bool
  narrative : String
deriving DecidableEq

/-- resolve_attack (combat.py): resolve names/AC/HP (characters first, an
unknown target defaulting to AC 10 and HP 0), roll the attack with
advantage/disadvantage, check the hit, on a hit roll damage — doubling the
dice portion on a critical by rolling the stripped notation a second time —
apply it through update_hp (whose ValueError propagates), and build the
narrative.  Returns the result, the updated store and the next counter. -/
def resolve_attack (attacker_id target_id weapon : String) (w : WorldState)
    (advantage disadvantage : Bool) (rand : Rand) (ctr : Nat) :
    Except String (AttackResult × WorldState × Nat) := do
  let attacker_name :=
    match w.characters.lookup attacker_id with
    | some c => c.name
    | none =>
      match w.enemies.lookup attacker_id with
      | some e => e.name
      | none => attacker_id
  let tgt : String × Int × Int :=
    match w.characters.lookup target_id with
    | some c => (c.name, c.ac, c.hp)
    | none =>
      match w.enemies.lookup target_id with
      | some e => (e.name, e.ac, e.hp)
      | none => (target_id, 10, 0)
  let target_name := tgt.1
  let target_ac := tgt.2.1
  let target_hp_before := tgt.2.2
  let attack_bonus := get_attack_bonus attacker_id weapon w
  let attack_ntn := if 0 ≤ attack_bonus then "1d20+" ++ intStr attack_bonus
    else "1d20" ++ intStr attack_bonus
  let (attack_result, ctr1) ←
    roll_dice attack_ntn "Attack Roll" attacker_name advantage disadvantage rand ctr
  let attack_roll : Option Nat :=
    if !(advantage || disadvantage) then some (attack_result.rolls.headD 0)
    else attack_result.kept_roll
  let attack_total := attack_result.total
  let critical := attack_result.critical
  let fumble := attack_result.fumble
  let hit := check_hit attack_total target_ac critical
  let after : Int × String × Int × Bool × WorldState × Nat ←
    if hit then do
      let dd := get_damage_dice attacker_id weapon w
      let (damage_result, ctr2) ←
        roll_dice dd.1 (pyCapitalize dd.2 ++ " Damage") attacker_name false false rand ctr1
      let (damage, ctr3) ←
        if critical then do
          let (crit_result, ctrx) ←
            roll_dice (stripMod dd.1) "Critical Bonus" attacker_name false false rand ctr2
          pure (damage_result.total + crit_result.total, ctrx)
        else pure (damage_result.total, ctr2)
      let (hp_after, w2) ← update_hp w target_id (-damage)
      pure (damage, dd.2, hp_after, decide (hp_after = 0), w2, ctr3)
    else
      pure ((0 : Int), "slashing", target_hp_before, false, w, ctr1)
  let damage := after.1
  let damage_type := after.2.1
  let target_hp_after := after.2.2.1
  let target_defeated := after.2.2.2.1
  let w' := after.2.2.2.2.1
  let ctr' := after.2.2.2.2.2
  let narrative :=
    if fumble then
      attacker_name ++ " swings wildly and misses! (Fumble: " ++ optNatStr attack_roll ++ ")"
    else if critical then
      if target_defeated then
        "CRITICAL HIT! " ++ attacker_name ++ " strikes " ++ target_name ++ " for " ++
          intStr damage ++ " " ++ damage_type ++ " damage! " ++ target_name ++ " falls!"
      else
        "CRITICAL HIT! " ++ attacker_name ++ " strikes " ++ target_name ++ " for " ++
          intStr damage ++ " " ++ damage_type ++ " damage! (" ++ intStr target_hp_after ++
          "/" ++ intStr target_hp_before ++ " HP)"
    else if hit then
      if target_defeated then
        attacker_name ++ " hits " ++ target_name ++ " (" ++ intStr attack_total ++
          " vs AC " ++ intStr target_ac ++ ") for " ++ intStr damage ++ " " ++ damage_type ++
          " damage! " ++ target_name ++ " goes down!"
      else
        attacker_name ++ " hits " ++ target_name ++ " (" ++ intStr attack_total ++
          " vs AC " ++ intStr target_ac ++ ") for " ++ intStr damage ++ " " ++ damage_type ++
          " damage. (" ++ intStr target_hp_after ++ " HP remaining)"
    else
      attacker_name ++ " attacks " ++ target_name ++ " but misses (" ++ intStr attack_total ++
        " vs AC " ++ intStr target_ac ++ ")."
  pure ({ attacker := attacker_id, target := target_id, attack_roll := attack_roll,
          attack_total := attack_total, target_ac := target_ac, hit := hit,
          critical := critical, fumble := fumble, damage := damage,
          damage_type := damage_type, target_hp_before := target_hp_before,
          target_hp_after := target_hp_after, target_defeated := target_defeated,
          narrative := narrative }, w', ctr')

/-- CombatEndResult (combat.py). -/
structure CombatEndResult where
  reason : String
  narrative : String
deriving DecidableEq

/-- check_combat_end (combat.py): none while combat is inactive; enemies
checked first (all dead AND at least one), then the party (all down AND at
least one); otherwise none. -/
def check_combat_end (w : WorldState) : Option CombatEndResult :=
  if !w.combat.active then none
  else
    let all_enemies_dead :=
      if w.enemies.isEmpty then true else w.enemies.all (fun p => !p.2.is_alive)
    if all_enemies_dead && !w.enemies.isEmpty then
      some ⟨"enemies_defeated", "All enemies have been defeated! Victory!"⟩
    else
      let all_party_down :=
        if w.characters.isEmpty then false else w.characters.all (fun p => !p.2.is_alive)
      if all_party_down then
        some ⟨"party_defeated", "The party has fallen..."⟩
      else none

/-- end_combat (combat.py): reset every CombatState field, then delete each
enemy whose is_alive is false (which includes fled enemies), and return the
reason-dependent narrative. -/
def end_combat (w : WorldState) (reason : String) : String × WorldState :=
  let w1 : WorldState :=
    { w with combat := { active := false, round := 0, turn_order := [],
                         current_turn_index := 0, combatants := [] } }
  let dead_enemies := (w1.enemies.filter (fun p => !p.2.is_alive)).map (fun p => p.1)
  let w2 := dead_enemies.foldl (fun acc eid => (remove_enemy acc eid).1) w1
  let narrative :=
    if reason == "enemies_defeated" then
      "=== COMBAT ENDS ===\n\nThe enemies lie defeated. You may search the area or continue on."
    else if reason == "party_defeated" then "=== COMBAT ENDS ===\n\nDarkness closes in..."
    else if reason == "fled" then "=== COMBAT ENDS ===\n\nYou flee from the battle."
    else "=== COMBAT ENDS ==="
  (narrative, w2)

/-- The aliveness re-check advance_turn performs against the live store:
enemies first, then characters, unknown ids count as not alive. -/
def isAliveInWorld (w : WorldState) (cid : String) : Bool :=
  match w.enemies.lookup cid with
  | some e => e.is_alive
  | none =>
    match w.characters.lookup cid with
    | some c => c.is_alive
    | none => false

/-- TurnAdvanceResult (combat.py). -/
structure TurnAdvanceResult where
  combatant_id : String
  combatant_name : String
  round_number : Nat
  is_new_round : Bool
  announcement : String
deriving DecidableEq

/-- The while-loop of advance_turn: starting from next_index with attempts
failed tries so far, increment the round whenever the walk stands at index
0 (except on the very first try when the walk started at 0), stop on the
first living combatant, give up after len(turn_order) tries. -/
def advanceLoop (w : WorldState) (order : List String) (current_index : Nat)
    (attempts next_index round : Nat) (is_new : Bool) : Option (Nat × Nat × Bool) :=
  if h : attempts < order.length then
    let wrap := next_index == 0 && (current_index != 0 || decide (0 < attempts))
    let round' := if wrap then round + 1 else round
    let is_new' := is_new || wrap
    if isAliveInWorld w (order.getD next_index "") then some (next_index, round', is_new')
    else advanceLoop w order current_index (attempts + 1)
      ((next_index + 1) % order.length) round' is_new'
  else none
termination_by order.length - attempts

/-- advance_turn (combat.py): nothing to do when combat is inactive or the
turn order is empty; otherwise walk to the next living combatant (the
fetched combatants snapshot is unused by the source — aliveness is
re-checked from the store), persist index and round, and announce. -/
def advance_turn (w : WorldState) : Option (TurnAdvanceResult × WorldState) :=
  if !w.combat.active then none
  else
    let order := w.combat.turn_order
    if order.isEmpty then none
    else
      let current_index := w.combat.current_turn_index
      let current_round := if w.combat.round == 0 then 1 else w.combat.round
      match advanceLoop w order current_index 0 ((current_index + 1) % order.length)
          current_round false with
      | none => none
      | some (next_index, round', is_new) =>
        let c' := { w.combat with current_turn_index := next_index, round := round' }
        let w' : WorldState := { w with combat := c' }
        let cid := order.getD next_index ""
        let cname :=
          match w.enemies.lookup cid with
          | some e => e.name
          | none =>
            match w.characters.lookup cid with
            | some c => c.name
            | none => cid
        let announcement :=
          if is_new then
            "=== ROUND " ++ natStr round' ++ " ===\n\n" ++ cname ++ "'s turn!"
          else cname ++ "'s turn!"
        some (⟨cid, cname, round', is_new, announcement⟩, w')

/-- advance_turn called k times in a row, collecting the results; stops
early if an advance reports nothing to do. -/
def advanceTimes (k : Nat) (w : WorldState) : List TurnAdvanceResult × WorldState :=
  match k with
  | 0 => ([], w)
  | kk + 1 =>
    match advance_turn w with
    | none => ([], w)
    | some (res, w') =>
      let rest := advanceTimes kk w'
      (res :: rest.1, rest.2)

/-! ### Association-list lemmas (the dict model) -/

theorem lookup_mem {α} {l : List (String × α)} {k : String} {v : α}
    (h : l.lookup k = some v) : (k, v) ∈ l := by
  induction l with
  | nil => simp [List.lookup] at h
  | cons p t ih =>
    rw [List.lookup_cons] at h
    split at h
    · next hk =>
      cases h
      have hk' : k = p.1 := eq_of_beq hk
      have : p = (k, p.2) := by cases p; simp [hk']
      rw [← this]
      exact List.mem_cons_self p t
    · exact List.mem_cons_of_mem p (ih h)

theorem lookup_none_keys {α} {l : List (String × α)} {k : String}
    (h : l.lookup k = none) : ∀ p ∈ l, p.1 ≠ k := by
  induction l with
  | nil => simp
  | cons p t ih =>
    rw [List.lookup_cons] at h
    split at h
    · cases h
    · next hk =>
      intro q hq
      rcases List.mem_cons.mp hq with rfl | hq2
      · intro he
        rw [he] at hk
        simp at hk
      · exact ih h q hq2

theorem lookup_setEntry_self {α} {l : List (String × α)} {k : String} {v : α}
    (h : l.lookup k = some v) (v' : α) : (setEntry l k v').lookup k = some v' := by
  induction l with
  | nil => simp [List.lookup] at h
  | cons p t ih =>
    rw [List.lookup_cons] at h
    unfold setEntry
    simp only [List.map_cons]
    split at h
    · next hk =>
      have hk' : k = p.1 := eq_of_beq hk
      rw [if_pos (by simp [hk'])]
      rw [List.lookup_cons]
      simp
    · next hk =>
      have hk' : ¬ k = p.1 := by
        intro he
        rw [he] at hk
        simp at hk
      rw [if_neg (by simp; exact fun he => hk' he.symm)]
      rw [List.lookup_cons]
      simp only [hk]
      exact ih h

theorem lookup_setEntry_ne {α} {l : List (String × α)} {k k' : String} {v' : α}
    (h : k' ≠ k) : (setEntry l k v').lookup k' = l.lookup k' := by
  induction l with
  | nil => rfl
  | cons p t ih =>
    unfold setEntry
    simp only [List.map_cons]
    by_cases hk : p.1 = k
    · rw [if_pos (by simp [hk])]
      rw [List.lookup_cons, List.lookup_cons]
      have h1 : (k' == k) = false := by simp [h]
      have h2 : (k' == p.1) = false := by simp [hk ▸ h]
      simp only [h1, h2]
      exact ih
    · rw [if_neg (by simp [hk])]
      rw [List.lookup_cons, List.lookup_cons]
      split
      · rfl
      · exact ih

theorem setEntry_mem {α} {l : List (String × α)} {k : String} {v' : α} :
    ∀ p ∈ setEntry l k v', p ∈ l ∨ p = (k, v') := by
  intro p hp
  unfold setEntry at hp
  rcases List.mem_map.mp hp with ⟨q, hq, he⟩
  by_cases hqk : q.1 = k
  · right
    rw [← he, if_pos (by simp [hqk])]
  · left
    rw [← he, if_neg (by simp [hqk])]
    exact hq

theorem delKey_eq_filter {α} {l : List (String × α)}
    (hnd : (l.map Prod.fst).Nodup) (k : String) :
    delKey l k = l.filter (fun p => !(p.1 == k)) := by
  induction l with
  | nil => rfl
  | cons a t ih =>
    simp only [List.map_cons, List.nodup_cons] at hnd
    unfold delKey
    rw [List.eraseP_cons]
    by_cases hk : a.1 = k
    · simp only [hk, beq_self_eq_true, cond_true, List.filter_cons, Bool.not_true,
        Bool.false_eq_true, if_false]
      have : ∀ p ∈ t, (!(p.1 == k)) = true := by
        intro p hp
        have : p.1 ≠ k := by
          intro he
          exact hnd.1 (hk ▸ he ▸ List.mem_map.mpr ⟨p, hp, rfl⟩)
        simp [this]
      rw [List.filter_eq_self.mpr this]
    · have hb : (a.1 == k) = false := by simp [hk]
      simp only [hb, cond_false, List.filter_cons, Bool.not_false, if_true]
      rw [← ih hnd.2]
      rfl

theorem delKey_keys_nodup {α} {l : List (String × α)}
    (hnd : (l.map Prod.fst).Nodup) (k : String) :
    ((delKey l k).map Prod.fst).Nodup := by
  rw [delKey_eq_filter hnd k]
  exact ((List.filter_sublist l).map Prod.fst).nodup hnd

theorem foldl_delKey_eq_filter {α} (ids : List String) (l : List (String × α))
    (hnd : (l.map Prod.fst).Nodup) :
    ids.foldl (fun acc k => delKey acc k) l = l.filter (fun p => !(ids.contains p.1)) := by
  induction ids generalizing l with
  | nil => simp
  | cons i ids ih =>
    rw [List.foldl_cons, ih (delKey l i) (delKey_keys_nodup hnd i),
      delKey_eq_filter hnd i, List.filter_filter]
    apply List.filter_congr
    intro p _
    by_cases h1 : p.1 = i
    · simp [h1]
    · simp [h1]

theorem keys_nodup_inj {α} {l : List (String × α)}
    (hnd : (l.map Prod.fst).Nodup) :
    ∀ p ∈ l, ∀ q ∈ l, p.1 = q.1 → p = q := by
  induction l with
  | nil => simp
  | cons a t ih =>
    simp only [List.map_cons, List.nodup_cons] at hnd
    intro p hp q hq he
    rcases List.mem_cons.mp hp with rfl | hp2
    · rcases List.mem_cons.mp hq with rfl | hq2
      · rfl
      · exact absurd (he ▸ List.mem_map.mpr ⟨q, hq2, rfl⟩) hnd.1
    · rcases List.mem_cons.mp hq with rfl | hq2
      · exact absurd (he ▸ List.mem_map.mpr ⟨p, hp2, rfl⟩) hnd.1
      · exact ih hnd.2 p hp2 q hq2 he

theorem delKey_not_present {α} {l : List (String × α)} {k : String}
    (h : l.lookup k = none) : delKey l k = l := by
  unfold delKey
  apply List.eraseP_of_forall_not
  intro p hp
  have := lookup_none_keys h p hp
  simp [this]

theorem remove_enemy_eq (w : WorldState) (eid : String) :
    (remove_enemy w eid).1 = { w with enemies := delKey w.enemies eid } := by
  unfold remove_enemy
  split
  · rfl
  · next hnone =>
    have hlk : w.enemies.lookup eid = none := by
      cases hv : w.enemies.lookup eid
      · rfl
      · rw [hv] at hnone; simp at hnone
    simp only [delKey_not_present hlk]

theorem foldl_remove_enemy (ids : List String) (w : WorldState) :
    ids.foldl (fun acc eid => (remove_enemy acc eid).1) w =
      { w with enemies := ids.foldl (fun acc k => delKey acc k) w.enemies } := by
  induction ids generalizing w with
  | nil => rfl
  | cons i ids ih =>
    rw [List.foldl_cons, List.foldl_cons, remove_enemy_eq, ih]

/-- The ids of the not-alive enemies cover exactly the not-alive entries:
filtering them out keeps exactly the alive ones (unique keys). -/
theorem filter_not_dead {l : List (String × EnemyState)}
    (hnd : (l.map Prod.fst).Nodup) :
    l.filter
      (fun p => !(((l.filter (fun q => !q.2.is_alive)).map (fun q => q.1)).contains p.1)) =
      l.filter (fun p => p.2.is_alive) := by
  apply List.filter_congr
  intro p hp
  by_cases ha : p.2.is_alive = true
  · simp only [ha]
    cases hc : ((l.filter (fun q => !q.2.is_alive)).map (fun q => q.1)).contains p.1
    · rfl
    · exfalso
      have hmem : p.1 ∈ (l.filter (fun q => !q.2.is_alive)).map (fun q => q.1) := by
        simpa using hc
      rcases List.mem_map.mp hmem with ⟨q, hq, he⟩
      have hq' := List.mem_filter.mp hq
      have hqp : q = p := keys_nodup_inj hnd q hq'.1 p hp he
      rw [hqp] at hq'
      simp [ha] at hq'
  · have ha' : p.2.is_alive = false := by
      cases h2 : p.2.is_alive
      · rfl
      · exact absurd h2 ha
    simp only [ha']
    have hmem : p.1 ∈ (l.filter fun q => !q.2.is_alive).map (fun q => q.1) :=
      List.mem_map.mpr ⟨p, List.mem_filter.mpr ⟨hp, by simp [ha']⟩, rfl⟩
    simp [hmem]

/-! ### The claims -/

/-- C1: for every turn-gate state and every non-human participant P, the
should-act query is true iff active_agent == P, or the mode is free_form
and P is addressed — except that an active_agent of "human" forces the
answer to false for every non-human participant. -/
theorem claim1_turn_gate_query (ts : TurnState) (agent_id : String)
    (hna : agent_id ≠ "human") :
    should_act ts agent_id = true ↔
      ((ts.active_agent = some agent_id ∨
        (ts.mode = "free_form" ∧ agent_id ∈ ts.addressed_agents)) ∧
       ts.active_agent ≠ some "human") := by
  unfold should_act TurnState.is_human_turn TurnState.is_agent_turn
  by_cases hh : ts.active_agent = some "human"
  · have hb : (ts.active_agent == some "human") = true := by simp [hh]
    have hne : ts.active_agent ≠ some agent_id := by
      rw [hh]
      intro he
      exact hna (Option.some.inj he).symm
    simp [hb, hh, hne]
  · have hb : (ts.active_agent == some "human") = false := by simp [hh]
    simp only [hb, Bool.false_eq_true, if_false]
    by_cases h1 : ts.active_agent = some agent_id
    · have h1b : (ts.active_agent == some agent_id) = true := by simp [h1]
      simp [h1b, h1, hh, hna]
    · have h1b : (ts.active_agent == some agent_id) = false := by simp [h1]
      simp only [h1b, Bool.false_eq_true, if_false]
      by_cases h2 : ts.mode = "free_form"
      · by_cases h3 : agent_id ∈ ts.addressed_agents
        · have : (ts.mode == "free_form" && ts.addressed_agents.contains agent_id) = true := by
            simp [h2, h3]
          simp [this, h1, h2, h3, hh]
        · have : (ts.mode == "free_form" && ts.addressed_agents.contains agent_id) = false := by
            simp [h3]
          simp [this, h1, h3, hh]
      · have : (ts.mode == "free_form" && ts.addressed_agents.contains agent_id) = false := by
          simp [h2]
        simp [this, h1, h2, hh]

/-- C1 witness: with mode free_form and "thokk" addressed the query is true,
and the human sentinel forces it to false even though "thokk" stays
addressed. -/
theorem claim1_turn_gate_query_witness :
    should_act ⟨none, "free_form", ["thokk", "lira"]⟩ "thokk" = true ∧
    should_act ⟨some "human", "free_form", ["thokk", "lira"]⟩ "thokk" = false := by
  constructor
  · exact (claim1_turn_gate_query ⟨none, "free_form", ["thokk", "lira"]⟩ "thokk"
      (by decide)).mpr ⟨Or.inr ⟨rfl, by decide⟩, by decide⟩
  · cases hsa : should_act ⟨some "human", "free_form", ["thokk", "lira"]⟩ "thokk"
    · rfl
    · exact absurd rfl ((claim1_turn_gate_query ⟨some "human", "free_form", ["thokk", "lira"]⟩
        "thokk" (by decide)).mp hsa).2

/-- The world of the C2 counterexample: one fled enemy at full HP. -/
def cexW2 : WorldState :=
  { combat := { active := true, round := 2, turn_order := ["goblin_1"], current_turn_index := 0 },
    enemies := [("goblin_1", { name := "Goblin (1)", hp := 7, max_hp := 7, ac := 15,
                               state := "fled" })] }

/-- C2 counterexample: a fled enemy (alive HP, state "fled") IS purged by
end_combat, contrary to the claim that it is left in the store unchanged —
is_alive is false for fled enemies and end_combat removes every enemy whose
is_alive is false. -/
theorem claim2_fled_purged_cex :
    (cexW2.enemies.lookup "goblin_1").map (fun e => (e.state, e.hp)) = some ("fled", 7) ∧
    ((cexW2.enemies.lookup "goblin_1").map (fun e => e.is_alive)) = some false ∧
    (end_combat cexW2 "fled").2.enemies.lookup "goblin_1" = none := by
  refine ⟨rfl, rfl, rfl⟩

/-- C2 amended: end_combat clears every CombatState field to its inactive
default and removes exactly the enemies whose is_alive is false — the dead
ones AND the fled ones — keeping everything else in the store untouched. -/
theorem claim2_end_combat_purges_not_alive (w : WorldState) (reason : String)
    (hnd : (w.enemies.map Prod.fst).Nodup) :
    (end_combat w reason).2.combat =
      { active := false, round := 0, turn_order := [], current_turn_index := 0,
        combatants := [] } ∧
    (end_combat w reason).2.enemies = w.enemies.filter (fun p => p.2.is_alive) ∧
    (end_combat w reason).2.characters = w.characters ∧
    (end_combat w reason).2.npcs = w.npcs ∧
    (end_combat w reason).2.turn_state = w.turn_state := by
  simp only [end_combat]
  rw [foldl_remove_enemy]
  refine ⟨rfl, ?_, rfl, rfl, rfl⟩
  rw [foldl_delKey_eq_filter _ _ hnd]
  exact filter_not_dead hnd

/-- C2 amended witness: a store with a dead, a fled and an alive enemy keeps
exactly the alive one. -/
theorem claim2_end_combat_purges_not_alive_witness :
    (end_combat
      { enemies := [("goblin_1", { name := "G1", hp := 0, max_hp := 7, ac := 15,
                                   state := "dead" }),
                    ("goblin_2", { name := "G2", hp := 7, max_hp := 7, ac := 15,
                                   state := "fled" }),
                    ("goblin_3", { name := "G3", hp := 3, max_hp := 7, ac := 15 })] }
      "enemies_defeated").2.enemies.map (fun p => p.1) = ["goblin_3"] := by
  have h := claim2_end_combat_purges_not_alive
    { enemies := [("goblin_1", { name := "G1", hp := 0, max_hp := 7, ac := 15,
                                 state := "dead" }),
                  ("goblin_2", { name := "G2", hp := 7, max_hp := 7, ac := 15,
                                 state := "fled" }),
                  ("goblin_3", { name := "G3", hp := 3, max_hp := 7, ac := 15 })] }
    "enemies_defeated" (by decide)
  rw [h.2.1]
  rfl

/-- The world of the C9 counterexample: active combat, both sides wiped. -/
def cexW9 : WorldState :=
  { combat := { active := true, round := 1, turn_order := ["vex", "goblin_1"],
                current_turn_index := 0 },
    characters := [("vex", { name := "Vex", hp := 0, max_hp := 9, ac := 14 })],
    enemies := [("goblin_1", { name := "Goblin (1)", hp := 0, max_hp := 7, ac := 15,
                               state := "dead" })] }

/-- C9 counterexample: in an active combat with both sides wiped, the
characters mapping is non-empty and every character is down, yet
check_combat_end reports "enemies_defeated", not "party_defeated" — the
claim's party-defeated iff fails (enemies are checked first). -/
theorem claim9_both_wiped_cex :
    cexW9.combat.active = true ∧
    cexW9.characters ≠ [] ∧ (∀ p ∈ cexW9.characters, p.2.is_alive = false) ∧
    (check_combat_end cexW9).map (fun r => r.reason) = some "enemies_defeated" := by
  refine ⟨rfl, by decide, by decide, rfl⟩

/-- C9 amended: while inactive, no end; while active, "enemies_defeated" iff
the enemies mapping is non-empty with every enemy not alive; and
"party_defeated" iff that enemies condition FAILS while the characters
mapping is non-empty with every character not alive (enemies-defeated takes
priority when both sides are wiped); otherwise no end. -/
theorem claim9_combat_end_detection (w : WorldState) :
    (w.combat.active = false → check_combat_end w = none) ∧
    (w.combat.active = true →
      (((check_combat_end w).map (fun r => r.reason) = some "enemies_defeated") ↔
        (w.enemies ≠ [] ∧ ∀ p ∈ w.enemies, p.2.is_alive = false)) ∧
      (((check_combat_end w).map (fun r => r.reason) = some "party_defeated") ↔
        (¬(w.enemies ≠ [] ∧ ∀ p ∈ w.enemies, p.2.is_alive = false) ∧
         (w.characters ≠ [] ∧ ∀ p ∈ w.characters, p.2.is_alive = false))) ∧
      ((check_combat_end w = none) ↔
        (¬(w.enemies ≠ [] ∧ ∀ p ∈ w.enemies, p.2.is_alive = false) ∧
         ¬(w.characters ≠ [] ∧ ∀ p ∈ w.characters, p.2.is_alive = false)))) := by
  have convE : (w.enemies.all (fun p => !p.2.is_alive) = true) ↔
      (∀ p ∈ w.enemies, p.2.is_alive = false) := by
    simp [List.all_eq_true]
  have convC : (w.characters.all (fun p => !p.2.is_alive) = true) ↔
      (∀ p ∈ w.characters, p.2.is_alive = false) := by
    simp [List.all_eq_true]
  have hsne1 : ("enemies_defeated" : String) ≠ "party_defeated" := by decide
  have hsne2 : ("party_defeated" : String) ≠ "enemies_defeated" := by decide
  refine ⟨fun ha => by simp [check_combat_end, ha], fun ha => ?_⟩
  by_cases hem : w.enemies.isEmpty = true
  · have hE : w.enemies = [] := List.isEmpty_iff.mp hem
    have hgE : ((if w.enemies.isEmpty = true then true
        else w.enemies.all (fun p => !p.2.is_alive)) && !w.enemies.isEmpty) = false := by
      simp [hem]
    by_cases hcem : w.characters.isEmpty = true
    · have hC0 : w.characters = [] := List.isEmpty_iff.mp hcem
      have hgC : (if w.characters.isEmpty = true then false
          else w.characters.all (fun p => !p.2.is_alive)) = false := by
        simp [hcem]
      have hval : check_combat_end w = none := by
        simp only [check_combat_end, ha, Bool.not_true, Bool.false_eq_true, if_false]
        rw [hgE, hgC]
        rfl
      refine ⟨iff_of_false ?_ ?_, iff_of_false ?_ ?_, iff_of_true hval ?_⟩
      · rw [hval]; intro hq; simp at hq
      · exact fun hA => hA.1 hE
      · rw [hval]; intro hq; simp at hq
      · exact fun hB => hB.2.1 hC0
      · exact ⟨fun hA => hA.1 hE, fun hB => hB.1 hC0⟩
    · have hC : w.characters ≠ [] := fun he => hcem (List.isEmpty_iff.mpr he)
      by_cases hcall : w.characters.all (fun p => !p.2.is_alive) = true
      · have hgC : (if w.characters.isEmpty = true then false
            else w.characters.all (fun p => !p.2.is_alive)) = true := by
          simp [hcem, hcall]
        have hval : check_combat_end w =
            some ⟨"party_defeated", "The party has fallen..."⟩ := by
          simp only [check_combat_end, ha, Bool.not_true, Bool.false_eq_true, if_false]
          rw [hgE, hgC]
          rfl
        have hcp := convC.mp hcall
        refine ⟨iff_of_false ?_ ?_, iff_of_true (by rw [hval]; rfl) ?_, iff_of_false ?_ ?_⟩
        · rw [hval]; intro hq; exact hsne2 (by simpa using hq)
        · exact fun hA => hA.1 hE
        · exact ⟨fun hA => hA.1 hE, hC, hcp⟩
        · rw [hval]; intro hq; simp at hq
        · exact fun hB => hB.2 ⟨hC, hcp⟩
      · have hgC : (if w.characters.isEmpty = true then false
            else w.characters.all (fun p => !p.2.is_alive)) = false := by
          simp only [hcem, Bool.false_eq_true, if_false]
          cases hcb : w.characters.all (fun p => !p.2.is_alive)
          · rfl
          · exact absurd hcb hcall
        have hval : check_combat_end w = none := by
          simp only [check_combat_end, ha, Bool.not_true, Bool.false_eq_true, if_false]
          rw [hgE, hgC]
          rfl
        have hnc : ¬ (∀ p ∈ w.characters, p.2.is_alive = false) :=
          fun hcp => hcall (convC.mpr hcp)
        refine ⟨iff_of_false ?_ ?_, iff_of_false ?_ ?_, iff_of_true hval ?_⟩
        · rw [hval]; intro hq; simp at hq
        · exact fun hA => hA.1 hE
        · rw [hval]; intro hq; simp at hq
        · exact fun hB => hnc hB.2.2
        · exact ⟨fun hA => hA.1 hE, fun hB => hnc hB.2⟩
  · have hE : w.enemies ≠ [] := fun he => hem (List.isEmpty_iff.mpr he)
    have hemf : w.enemies.isEmpty = false := by
      cases hb : w.enemies.isEmpty
      · rfl
      · exact absurd hb hem
    by_cases hall : w.enemies.all (fun p => !p.2.is_alive) = true
    · have hgE : ((if w.enemies.isEmpty = true then true
          else w.enemies.all (fun p => !p.2.is_alive)) && !w.enemies.isEmpty) = true := by
        simp [hemf, hall]
      have hval : check_combat_end w =
          some ⟨"enemies_defeated", "All enemies have been defeated! Victory!"⟩ := by
        simp only [check_combat_end, ha, Bool.not_true, Bool.false_eq_true, if_false]
        rw [hgE]
        rfl
      have hep := convE.mp hall
      refine ⟨iff_of_true (by rw [hval]; rfl) ⟨hE, hep⟩, iff_of_false ?_ ?_, iff_of_false ?_ ?_⟩
      · rw [hval]; intro hq; exact hsne1 (by simpa using hq)
      · exact fun hB => hB.1 ⟨hE, hep⟩
      · rw [hval]; intro hq; simp at hq
      · exact fun hB => hB.1 ⟨hE, hep⟩
    · have hallf : w.enemies.all (fun p => !p.2.is_alive) = false := by
        cases hb : w.enemies.all (fun p => !p.2.is_alive)
        · rfl
        · exact absurd hb hall
      have hgE : ((if w.enemies.isEmpty = true then true
          else w.enemies.all (fun p => !p.2.is_alive)) && !w.enemies.isEmpty) = false := by
        simp [hemf, hallf]
      have hne : ¬ (∀ p ∈ w.enemies, p.2.is_alive = false) :=
        fun hep => hall (convE.mpr hep)
      by_cases hcem : w.characters.isEmpty = true
      · have hC0 : w.characters = [] := List.isEmpty_iff.mp hcem
        have hgC : (if w.characters.isEmpty = true then false
            else w.characters.all (fun p => !p.2.is_alive)) = false := by
          simp [hcem]
        have hval : check_combat_end w = none := by
          simp only [check_combat_end, ha, Bool.not_true, Bool.false_eq_true, if_false]
          rw [hgE, hgC]
          rfl
        refine ⟨iff_of_false ?_ ?_, iff_of_false ?_ ?_, iff_of_true hval ?_⟩
        · rw [hval]; intro hq; simp at hq
        · exact fun hA => hne hA.2
        · rw [hval]; intro hq; simp at hq
        · exact fun hB => hB.2.1 hC0
        · exact ⟨fun hA => hne hA.2, fun hB => hB.1 hC0⟩
      · have hC : w.characters ≠ [] := fun he => hcem (List.isEmpty_iff.mpr he)
        by_cases hcall : w.characters.all (fun p => !p.2.is_alive) = true
        · have hgC : (if w.characters.isEmpty = true then false
              else w.characters.all (fun p => !p.2.is_alive)) = true := by
            simp [hcem, hcall]
          have hval : check_combat_end w =
              some ⟨"party_defeated", "The party has fallen..."⟩ := by
            simp only [check_combat_end, ha, Bool.not_true, Bool.false_eq_true, if_false]
            rw [hgE, hgC]
            rfl
          have hcp := convC.mp hcall
          refine ⟨iff_of_false ?_ ?_, iff_of_true (by rw [hval]; rfl) ?_, iff_of_false ?_ ?_⟩
          · rw [hval]; intro hq; exact hsne2 (by simpa using hq)
          · exact fun hA => hne hA.2
          · exact ⟨fun hA => hne hA.2, hC, hcp⟩
          · rw [hval]; intro hq; simp at hq
          · exact fun hB => hB.2 ⟨hC, hcp⟩
        · have hgC : (if w.characters.isEmpty = true then false
              else w.characters.all (fun p => !p.2.is_alive)) = false := by
            simp only [hcem, Bool.false_eq_true, if_false]
            cases hcb : w.characters.all (fun p => !p.2.is_alive)
            · rfl
            · exact absurd hcb hcall
          have hval : check_combat_end w = none := by
            simp only [check_combat_end, ha, Bool.not_true, Bool.false_eq_true, if_false]
            rw [hgE, hgC]
            rfl
          have hnc : ¬ (∀ p ∈ w.characters, p.2.is_alive = false) :=
            fun hcp => hcall (convC.mpr hcp)
          refine ⟨iff_of_false ?_ ?_, iff_of_false ?_ ?_, iff_of_true hval ?_⟩
          · rw [hval]; intro hq; simp at hq
          · exact fun hA => hne hA.2
          · rw [hval]; intro hq; simp at hq
          · exact fun hB => hnc hB.2.2
          · exact ⟨fun hA => hne hA.2, fun hB => hnc hB.2⟩

/-- C9 amended witness: in an active combat with one dead enemy and one
standing character, the detector reports "enemies_defeated". -/
theorem claim9_combat_end_detection_witness :
    (check_combat_end
      { combat := { active := true, round := 1 },
        characters := [("vex", { name := "Vex", hp := 9, max_hp := 9, ac := 14 })],
        enemies := [("goblin_1", { name := "G1", hp := 0, max_hp := 7, ac := 15,
                                   state := "dead" })] }).map (fun r => r.reason) =
      some "enemies_defeated" := by
  exact ((claim9_combat_end_detection
    { combat := { active := true, round := 1 },
      characters := [("vex", { name := "Vex", hp := 9, max_hp := 9, ac := 14 })],
      enemies := [("goblin_1", { name := "G1", hp := 0, max_hp := 7, ac := 15,
                                 state := "dead" })] }).2 rfl).1.mpr
    ⟨by decide, by decide⟩

/-- The world of the C5 counterexample: a character at 5 HP that carries the
"unconscious" condition. -/
def cexW5 : WorldState :=
  { characters := [("vex", { name := "Vex", hp := 5, max_hp := 9, ac := 14,
                             conditions := ["unconscious"] })] }

/-- C5 counterexample: update_hp removes "unconscious" whenever the NEW hp is
positive — here the hp goes 5 → 6, no 0-to-positive transition happens, yet
the condition is removed, so the claimed list of transitions is not
exhaustive. -/
theorem claim5_unconscious_removal_cex :
    (cexW5.characters.lookup "vex").map (fun c => (c.hp, c.conditions)) =
      some (5, ["unconscious"]) ∧
    ((update_hp cexW5 "vex" 1).toOption.bind
      (fun pr => pr.2.characters.lookup "vex")).map (fun c => (c.hp, c.conditions)) =
      some (6, []) := by
  exact ⟨rfl, rfl⟩

/-- C5 amended: update_hp performs exactly these transitions — a character
whose hp crosses from >0 to 0 gains "unconscious" without duplication; a
character whose NEW hp is >0 loses "unconscious" if present (even when the
old hp was already positive); an enemy whose hp crosses from >0 to 0 gets
state "dead"; no other condition or state change happens. -/
theorem claim5_hp_transitions (w : WorldState) (id : String) (δ : Int) :
    (∀ c, w.characters.lookup id = some c →
      c.conditions.count "unconscious" ≤ 1 →
      ∃ r w', update_hp w id δ = .ok (r, w') ∧
        r = max 0 (min c.max_hp (c.hp + δ)) ∧
        ∃ c', w'.characters.lookup id = some c' ∧ c'.hp = r ∧
          (("unconscious" ∈ c'.conditions) ↔
            (r = 0 ∧ (0 < c.hp ∨ "unconscious" ∈ c.conditions))) ∧
          c'.conditions.count "unconscious" ≤ 1 ∧
          (∀ s, s ≠ "unconscious" → ((s ∈ c'.conditions) ↔ (s ∈ c.conditions)))) ∧
    (w.characters.lookup id = none →
      ∀ e, w.enemies.lookup id = some e →
        ∃ r w', update_hp w id δ = .ok (r, w') ∧
          r = max 0 (min e.max_hp (e.hp + δ)) ∧
          ∃ e', w'.enemies.lookup id = some e' ∧ e'.hp = r ∧
            e'.state = (if r = 0 ∧ 0 < e.hp then "dead" else e.state)) := by
  constructor
  · intro c hc hcount
    by_cases h0 : (max 0 (min c.max_hp (c.hp + δ))) = 0
    · have hdec : decide (0 < max 0 (min c.max_hp (c.hp + δ))) = false := by simp [h0]
      by_cases hold : 0 < c.hp
      · by_cases hmem : "unconscious" ∈ c.conditions
        · -- crossing to 0 with the condition already present: unchanged
          have hb1 : ((max 0 (min c.max_hp (c.hp + δ)) == 0) && decide (0 < c.hp)) = true := by
            simp [h0, hold]
          have hcont : c.conditions.contains "unconscious" = true := by simpa using hmem
          have hupd : update_hp w id δ = .ok (max 0 (min c.max_hp (c.hp + δ)), { w with characters := setEntry w.characters id { c with hp := max 0 (min c.max_hp (c.hp + δ)), conditions := c.conditions } }) := by
            simp only [update_hp, hc, hb1, hcont, hdec, Bool.false_and, Bool.true_and,
              eq_self_iff_true, if_true, Bool.false_eq_true, if_false]
          refine ⟨_, _, hupd, rfl, _, lookup_setEntry_self hc _, rfl, ?_, hcount,
            fun s _ => Iff.rfl⟩
          simp [hmem, h0, hold]
        · -- crossing to 0 without the condition: append it once
          have hb1 : ((max 0 (min c.max_hp (c.hp + δ)) == 0) && decide (0 < c.hp)) = true := by
            simp [h0, hold]
          have hcont : c.conditions.contains "unconscious" = false := by
            simp [hmem]
          have hupd : update_hp w id δ = .ok (max 0 (min c.max_hp (c.hp + δ)), { w with characters := setEntry w.characters id { c with hp := max 0 (min c.max_hp (c.hp + δ)), conditions := c.conditions ++ ["unconscious"] } }) := by
            simp only [update_hp, hc, hb1, hcont, hdec, Bool.false_and, Bool.true_and,
              eq_self_iff_true, if_true, Bool.false_eq_true, if_false]
          refine ⟨_, _, hupd, rfl, _, lookup_setEntry_self hc _, rfl, ?_, ?_, ?_⟩
          · simp [h0, hold]
          · have hz : c.conditions.count "unconscious" = 0 := List.count_eq_zero.mpr hmem
            simp [List.count_append, hz]
          · intro s hs
            simp [List.mem_append, hs]
      · -- new hp 0 but the old hp was not positive: nothing changes
        have hb1 : ((max 0 (min c.max_hp (c.hp + δ)) == 0) && decide (0 < c.hp)) = false := by
          simp [hold]
        have hupd : update_hp w id δ = .ok (max 0 (min c.max_hp (c.hp + δ)), { w with characters := setEntry w.characters id { c with hp := max 0 (min c.max_hp (c.hp + δ)), conditions := c.conditions } }) := by
          simp only [update_hp, hc, hb1, hdec, Bool.false_and, Bool.true_and,
            eq_self_iff_true, if_true, Bool.false_eq_true, if_false]
        refine ⟨_, _, hupd, rfl, _, lookup_setEntry_self hc _, rfl, ?_, hcount,
          fun s _ => Iff.rfl⟩
        simp [h0, hold]
    · -- new hp positive: "unconscious" is removed when present
      have hpos : 0 < max 0 (min c.max_hp (c.hp + δ)) :=
        (le_max_left 0 _).lt_of_ne (fun he => h0 he.symm)
      have hdec : decide (0 < max 0 (min c.max_hp (c.hp + δ))) = true := by simp [hpos]
      have hb1 : ((max 0 (min c.max_hp (c.hp + δ)) == 0) && decide (0 < c.hp)) = false := by
        simp [h0]
      by_cases hmem : "unconscious" ∈ c.conditions
      · have hcont : c.conditions.contains "unconscious" = true := by simpa using hmem
        have hupd : update_hp w id δ = .ok (max 0 (min c.max_hp (c.hp + δ)), { w with characters := setEntry w.characters id { c with hp := max 0 (min c.max_hp (c.hp + δ)), conditions := c.conditions.erase "unconscious" } }) := by
          simp only [update_hp, hc, hb1, hcont, hdec, Bool.false_and, Bool.true_and,
            eq_self_iff_true, if_true, Bool.false_eq_true, if_false]
        have hone : c.conditions.count "unconscious" = 1 := by
          have := List.count_pos_iff.mpr hmem
          omega
        have hgone : "unconscious" ∉ c.conditions.erase "unconscious" := by
          rw [← List.count_eq_zero, List.count_erase_self, hone]
        refine ⟨_, _, hupd, rfl, _, lookup_setEntry_self hc _, rfl, ?_, ?_, ?_⟩
        · simp [hgone, h0]
        · rw [List.count_erase_self, hone]
          omega
        · intro s hs
          exact List.mem_erase_of_ne hs
      · have hcont : c.conditions.contains "unconscious" = false := by simp [hmem]
        have hupd : update_hp w id δ = .ok (max 0 (min c.max_hp (c.hp + δ)), { w with characters := setEntry w.characters id { c with hp := max 0 (min c.max_hp (c.hp + δ)), conditions := c.conditions } }) := by
          simp only [update_hp, hc, hb1, hcont, hdec, Bool.false_and, Bool.true_and,
            eq_self_iff_true, if_true, Bool.false_eq_true, if_false]
        refine ⟨_, _, hupd, rfl, _, lookup_setEntry_self hc _, rfl, ?_, hcount,
          fun s _ => Iff.rfl⟩
        simp [hmem, h0]
  · intro hnone e he
    by_cases hb : (max 0 (min e.max_hp (e.hp + δ))) = 0 ∧ 0 < e.hp
    · have hbool : ((max 0 (min e.max_hp (e.hp + δ)) == 0) && decide (0 < e.hp)) = true := by
        simp [hb.1, hb.2]
      have hupd : update_hp w id δ = .ok (max 0 (min e.max_hp (e.hp + δ)), { w with enemies := setEntry w.enemies id { e with hp := max 0 (min e.max_hp (e.hp + δ)), state := "dead" } }) := by
        simp only [update_hp, hnone, he, hbool, eq_self_iff_true, if_true,
          Bool.false_eq_true, if_false]
      refine ⟨_, _, hupd, rfl, _, lookup_setEntry_self he _, rfl, ?_⟩
      rw [if_pos hb]
    · have hbool : ((max 0 (min e.max_hp (e.hp + δ)) == 0) && decide (0 < e.hp)) = false := by
        rcases Decidable.not_and_iff_or_not.mp hb with h1 | h2
        · simp [h1]
        · simp [h2]
      have hupd : update_hp w id δ = .ok (max 0 (min e.max_hp (e.hp + δ)), { w with enemies := setEntry w.enemies id { e with hp := max 0 (min e.max_hp (e.hp + δ)), state := e.state } }) := by
        simp only [update_hp, hnone, he, hbool, eq_self_iff_true, if_true,
          Bool.false_eq_true, if_false]
      refine ⟨_, _, hupd, rfl, _, lookup_setEntry_self he _, rfl, ?_⟩
      rw [if_neg hb]

/-- C5 amended witness: the transition characterization instantiated for a
9-HP character dropping by 9 and a 7-HP enemy dropping by 7. -/
theorem claim5_hp_transitions_witness :
    (∃ r w', update_hp
        { characters := [("vex", { name := "Vex", hp := 9, max_hp := 9, ac := 14 })] }
        "vex" (-9) = .ok (r, w') ∧
      r = max 0 (min (9 : Int) (9 + -9)) ∧
      ∃ c', w'.characters.lookup "vex" = some c' ∧ c'.hp = r ∧
        (("unconscious" ∈ c'.conditions) ↔
          (r = 0 ∧ ((0 : Int) < 9 ∨ "unconscious" ∈ ([] : List String)))) ∧
        c'.conditions.count "unconscious" ≤ 1 ∧
        (∀ s, s ≠ "unconscious" → ((s ∈ c'.conditions) ↔ (s ∈ ([] : List String))))) ∧
    (∃ r w', update_hp
        { enemies := [("goblin_1", { name := "G1", hp := 7, max_hp := 7, ac := 15 })] }
        "goblin_1" (-7) = .ok (r, w') ∧
      r = max 0 (min (7 : Int) (7 + -7)) ∧
      ∃ e', w'.enemies.lookup "goblin_1" = some e' ∧ e'.hp = r ∧
        e'.state = (if r = 0 ∧ (0 : Int) < 7 then "dead" else "alive")) := by
  constructor
  · exact (claim5_hp_transitions
      { characters := [("vex", { name := "Vex", hp := 9, max_hp := 9, ac := 14 })] }
      "vex" (-9)).1 { name := "Vex", hp := 9, max_hp := 9, ac := 14 } rfl (by decide)
  · exact (claim5_hp_transitions
      { enemies := [("goblin_1", { name := "G1", hp := 7, max_hp := 7, ac := 15 })] }
      "goblin_1" (-7)).2 rfl { name := "G1", hp := 7, max_hp := 7, ac := 15 } rfl

/-- C10: once an enemy's state is "dead", no sequence of update_hp calls
(any entity ids, any deltas, errors ignored) ever makes it alive again:
update_hp only ever writes "dead" into an enemy's state, never "alive", and
is_alive demands state "alive" — so even a positive delta that raises the
hp above 0 leaves the enemy not alive. -/
theorem claim10_dead_stays_dead (w : WorldState) (id : String) (e : EnemyState)
    (hlk : w.enemies.lookup id = some e) (hdead : e.state = "dead")
    (ops : List (String × Int)) :
    ∃ e', (applyUpdates w ops).enemies.lookup id = some e' ∧ e'.state = "dead" ∧
      e'.is_alive = false := by
  induction ops generalizing w e with
  | nil => exact ⟨e, hlk, hdead, by simp [EnemyState.is_alive, hdead]⟩
  | cons op ops ih =>
    cases hu : update_hp w op.1 op.2 with
    | error msg =>
      have hstep : applyUpdates w (op :: ops) = applyUpdates w ops := by
        simp only [applyUpdates, List.foldl_cons, hu]
      rw [hstep]
      exact ih w e hlk hdead
    | ok pr =>
      obtain ⟨r, w'⟩ := pr
      have hstep : applyUpdates w (op :: ops) = applyUpdates w' ops := by
        simp only [applyUpdates, List.foldl_cons, hu]
      rw [hstep]
      cases hch : w.characters.lookup op.1 with
      | some c =>
        have hen' : w'.enemies = w.enemies := by
          simp only [update_hp, hch] at hu
          cases hu
          rfl
        exact ih w' e (hen' ▸ hlk) hdead
      | none =>
        cases hen : w.enemies.lookup op.1 with
        | none => simp [update_hp, hch, hen] at hu
        | some e2 =>
          simp only [update_hp, hch, hen] at hu
          cases hu
          by_cases heq : op.1 = id
          · subst heq
            have he : e = e2 := Option.some.inj (hlk.symm.trans hen)
            refine ih _ _ (lookup_setEntry_self hen _) ?_
            show (if ((max 0 (min e2.max_hp (e2.hp + op.2)) == 0) &&
                decide (0 < e2.hp)) = true then "dead" else e2.state) = "dead"
            split
            · rfl
            · rw [← he]
              exact hdead
          · have hne : id ≠ op.1 := fun he => heq he.symm
            exact ih _ e ((lookup_setEntry_ne hne).trans hlk) hdead

/-- C10 witness: a dead enemy healed by +5 has 5 HP but stays dead and not
alive. -/
theorem claim10_dead_stays_dead_witness :
    (∃ e', (applyUpdates
        { enemies := [("goblin_1", { name := "G1", hp := 0, max_hp := 7, ac := 15,
                                     state := "dead" })] }
        [("goblin_1", 5)]).enemies.lookup "goblin_1" = some e' ∧
      e'.state = "dead" ∧ e'.is_alive = false) ∧
    ((applyUpdates
        { enemies := [("goblin_1", { name := "G1", hp := 0, max_hp := 7, ac := 15,
                                     state := "dead" })] }
        [("goblin_1", 5)]).enemies.lookup "goblin_1").map (fun e => e.hp) = some 5 := by
  constructor
  · exact claim10_dead_stays_dead
      { enemies := [("goblin_1", { name := "G1", hp := 0, max_hp := 7, ac := 15,
                                   state := "dead" })] }
      "goblin_1" { name := "G1", hp := 0, max_hp := 7, ac := 15, state := "dead" }
      rfl rfl [("goblin_1", 5)]
  · rfl

/-- The HP invariant of the spec: every character and enemy in the store has
0 ≤ hp ≤ max_hp. -/
def HpInv (w : WorldState) : Prop :=
  (∀ p ∈ w.characters, 0 ≤ p.2.hp ∧ p.2.hp ≤ p.2.max_hp) ∧
  (∀ p ∈ w.enemies, 0 ≤ p.2.hp ∧ p.2.hp ≤ p.2.max_hp)

/-- One successful update_hp keeps the HP invariant, returns exactly
clamp(old + delta, 0, max_hp), and stores that value in the entity. -/
theorem update_hp_ok_inv {w : WorldState} (hInv : HpInv w) {id : String} {δ : Int}
    {r : Int} {w' : WorldState} (h : update_hp w id δ = .ok (r, w')) :
    HpInv w' ∧
    ((∃ c, w.characters.lookup id = some c ∧ r = max 0 (min c.max_hp (c.hp + δ)) ∧
       0 ≤ r ∧ r ≤ c.max_hp ∧ ∃ c', w'.characters.lookup id = some c' ∧ c'.hp = r) ∨
     (∃ e, w.characters.lookup id = none ∧ w.enemies.lookup id = some e ∧
       r = max 0 (min e.max_hp (e.hp + δ)) ∧ 0 ≤ r ∧ r ≤ e.max_hp ∧
       ∃ e', w'.enemies.lookup id = some e' ∧ e'.hp = r)) := by
  cases hch : w.characters.lookup id with
  | some c =>
    have hcinv := hInv.1 (id, c) (lookup_mem hch)
    have hM : (0 : Int) ≤ c.max_hp := le_trans hcinv.1 hcinv.2
    have hle : max 0 (min c.max_hp (c.hp + δ)) ≤ c.max_hp :=
      max_le hM (min_le_left _ _)
    simp only [update_hp, hch] at h
    cases h
    refine ⟨⟨?_, fun p hp => hInv.2 p hp⟩,
      Or.inl ⟨c, rfl, rfl, le_max_left 0 _, hle, _, lookup_setEntry_self hch _, rfl⟩⟩
    intro p hp
    rcases setEntry_mem p hp with hmem | rfl
    · exact hInv.1 p hmem
    · exact ⟨le_max_left 0 _, hle⟩
  | none =>
    cases hen : w.enemies.lookup id with
    | none => simp [update_hp, hch, hen] at h
    | some e =>
      have heinv := hInv.2 (id, e) (lookup_mem hen)
      have hM : (0 : Int) ≤ e.max_hp := le_trans heinv.1 heinv.2
      have hle : max 0 (min e.max_hp (e.hp + δ)) ≤ e.max_hp :=
        max_le hM (min_le_left _ _)
      simp only [update_hp, hch, hen] at h
      cases h
      refine ⟨⟨fun p hp => hInv.1 p hp, ?_⟩,
        Or.inr ⟨e, rfl, rfl, rfl, le_max_left 0 _, hle, _, lookup_setEntry_self hen _, rfl⟩⟩
      intro p hp
      rcases setEntry_mem p hp with hmem | rfl
      · exact hInv.2 p hmem
      · exact ⟨le_max_left 0 _, hle⟩

/-- C4: starting from a store where every character and enemy satisfies
0 ≤ hp ≤ max_hp, the invariant holds after every update_hp of any sequence
of HP deltas, and each successful call computes, stores and returns exactly
clamp(old_hp + delta, 0, max_hp). -/
theorem claim4_hp_clamp (w : WorldState) (hInv : HpInv w) :
    (∀ ops, HpInv (applyUpdates w ops)) ∧
    (∀ id δ r w', update_hp w id δ = .ok (r, w') →
      HpInv w' ∧
      ((∃ c, w.characters.lookup id = some c ∧ r = max 0 (min c.max_hp (c.hp + δ)) ∧
         0 ≤ r ∧ r ≤ c.max_hp ∧ ∃ c', w'.characters.lookup id = some c' ∧ c'.hp = r) ∨
       (∃ e, w.characters.lookup id = none ∧ w.enemies.lookup id = some e ∧
         r = max 0 (min e.max_hp (e.hp + δ)) ∧ 0 ≤ r ∧ r ≤ e.max_hp ∧
         ∃ e', w'.enemies.lookup id = some e' ∧ e'.hp = r))) := by
  constructor
  · intro ops
    induction ops generalizing w with
    | nil => exact hInv
    | cons op ops ih =>
      cases hu : update_hp w op.1 op.2 with
      | error msg =>
        have hstep : applyUpdates w (op :: ops) = applyUpdates w ops := by
          simp only [applyUpdates, List.foldl_cons, hu]
        rw [hstep]
        exact ih w hInv
      | ok pr =>
        obtain ⟨r, w'⟩ := pr
        have hstep : applyUpdates w (op :: ops) = applyUpdates w' ops := by
          simp only [applyUpdates, List.foldl_cons, hu]
        rw [hstep]
        exact ih w' (update_hp_ok_inv hInv hu).1
  · intro id δ r w' h
    exact update_hp_ok_inv hInv h

/-- C4 witness: the clamp theorem instantiated on a 9/9-HP character first
damaged past 0 and then over-healed. -/
theorem claim4_hp_clamp_witness :
    (HpInv { characters := [("vex", { name := "Vex", hp := 9, max_hp := 9, ac := 14 })] } →
      HpInv (applyUpdates
        { characters := [("vex", { name := "Vex", hp := 9, max_hp := 9, ac := 14 })] }
        [("vex", -20), ("vex", 50)])) ∧
    HpInv (applyUpdates
      { characters := [("vex", { name := "Vex", hp := 9, max_hp := 9, ac := 14 })] }
      [("vex", -20), ("vex", 50)]) ∧
    ((applyUpdates
      { characters := [("vex", { name := "Vex", hp := 9, max_hp := 9, ac := 14 })] }
      [("vex", -20), ("vex", 50)]).characters.lookup "vex").map (fun c => c.hp) = some 9 := by
  have hInv : HpInv { characters := [("vex", { name := "Vex", hp := 9, max_hp := 9, ac := 14 })] } := by
    constructor
    · intro p hp
      rcases List.mem_cons.mp hp with rfl | hempty
      · exact ⟨by norm_num, by norm_num⟩
      · simp at hempty
    · intro p hp
      simp at hp
  refine ⟨fun _ => ?_, ?_, rfl⟩
  · exact (claim4_hp_clamp _ hInv).1 [("vex", -20), ("vex", 50)]
  · exact (claim4_hp_clamp _ hInv).1 [("vex", -20), ("vex", 50)]

/-- The state advance_turn persists: new index and round, all else kept. -/
def setIdx (w : WorldState) (j r : Nat) : WorldState :=
  { w with combat := { w.combat with current_turn_index := j, round := r } }

theorem isAliveInWorld_setIdx (w : WorldState) (j r : Nat) (cid : String) :
    isAliveInWorld (setIdx w j r) cid = isAliveInWorld w cid := rfl

/-- One advance_turn step in an all-alive combat: the loop stops at the very
first candidate (index + 1 mod n), and the round grows exactly when the walk
lands on index 0 coming from a non-zero index. -/
theorem advance_turn_step (w : WorldState) (n i r : Nat)
    (hact : w.combat.active = true)
    (hlen : w.combat.turn_order.length = n)
    (hn : 0 < n) (hi : w.combat.current_turn_index = i) (hilt : i < n)
    (hr : w.combat.round = r) (hrpos : 0 < r)
    (halive : ∀ cid ∈ w.combat.turn_order, isAliveInWorld w cid = true) :
    ∃ res, advance_turn w =
        some (res, setIdx w ((i + 1) % n) (if (i + 1) % n = 0 ∧ i ≠ 0 then r + 1 else r)) ∧
      res.round_number = (if (i + 1) % n = 0 ∧ i ≠ 0 then r + 1 else r) ∧
      res.is_new_round = decide ((i + 1) % n = 0 ∧ i ≠ 0) := by
  have hne : w.combat.turn_order.isEmpty = false := by
    cases ho : w.combat.turn_order
    · rw [ho] at hlen; simp at hlen; omega
    · simp [List.isEmpty]
  have hr0 : (w.combat.round == 0) = false := by
    simp only [beq_eq_false_iff_ne, ne_eq, hr]
    omega
  have hmodlt : (i + 1) % n < n := Nat.mod_lt _ hn
  have hmem : w.combat.turn_order.getD ((i + 1) % n) "" ∈ w.combat.turn_order := by
    rw [List.getD_eq_getElem _ _ (hlen ▸ hmodlt)]
    exact List.getElem_mem _
  have hal : isAliveInWorld w (w.combat.turn_order.getD ((i + 1) % n) "") = true :=
    halive _ hmem
  have hwrap : ((((i + 1) % n : Nat) == 0) && ((i : Nat) != 0 || decide (0 < (0 : Nat)))) =
      decide ((i + 1) % n = 0 ∧ i ≠ 0) := by
    by_cases h1 : (i + 1) % n = 0 <;> by_cases h2 : i = 0 <;> simp [h1, h2]
  have hloop : advanceLoop w w.combat.turn_order i 0 ((i + 1) % n) r false =
      some ((i + 1) % n, (if (i + 1) % n = 0 ∧ i ≠ 0 then r + 1 else r),
        decide ((i + 1) % n = 0 ∧ i ≠ 0)) := by
    rw [advanceLoop]
    rw [dif_pos (by omega : 0 < w.combat.turn_order.length)]
    rw [hal]
    simp only [if_true]
    rw [hwrap]
    by_cases hc : (i + 1) % n = 0 ∧ i ≠ 0
    · simp [hc]
    · simp [hc]
  apply Exists.intro
  refine ⟨?_, ?_, ?_⟩
  · unfold advance_turn
    rw [hact]
    simp only [Bool.not_true, Bool.false_eq_true, if_false]
    rw [hne]
    simp only [Bool.false_eq_true, if_false]
    rw [hr0]
    simp only [Bool.false_eq_true, if_false]
    rw [hi, hr, hlen, hloop]
    rfl
  · rfl
  · rfl

/-- Advancing the remaining n − i.succ steps of a round from index i in an
all-alive combat at round 1: all advances succeed, exactly the final one is
flagged, and the round ends at 2 back on index 0. -/
theorem advance_iter (n : Nat) (hn : 2 ≤ n) :
    ∀ k i w, i + k = n → i < n →
    w.combat.active = true → w.combat.turn_order.length = n →
    w.combat.current_turn_index = i → w.combat.round = 1 →
    (∀ cid ∈ w.combat.turn_order, isAliveInWorld w cid = true) →
    (advanceTimes k w).1.length = k ∧
    ((advanceTimes k w).1.countP (fun res => res.is_new_round)) = 1 ∧
    (advanceTimes k w).2.combat.round = 2 ∧
    (advanceTimes k w).2.combat.current_turn_index = 0 := by
  intro k
  induction k with
  | zero =>
    intro i w hik hi _ _ _ _ _
    omega
  | succ k ih =>
    intro i w hik hi hact hlen hidx hrnd halive
    obtain ⟨res, hadv, hround, hflag⟩ :=
      advance_turn_step w n i 1 hact hlen (by omega) hidx hi hrnd (by omega) halive
    by_cases hk : k = 0
    · subst hk
      have hmod : (i + 1) % n = 0 := by
        have : i + 1 = n := by omega
        rw [this, Nat.mod_self]
      have hine : i ≠ 0 := by omega
      have hcond : (i + 1) % n = 0 ∧ i ≠ 0 := ⟨hmod, hine⟩
      rw [if_pos hcond] at hadv
      simp only [advanceTimes, hadv]
      refine ⟨rfl, ?_, rfl, by simp [setIdx, hmod]⟩
      simp [List.countP_cons, hflag, hcond]
    · have hilt : i + 1 < n := by omega
      have hmod : (i + 1) % n = i + 1 := Nat.mod_eq_of_lt hilt
      have hcond : ¬((i + 1) % n = 0 ∧ i ≠ 0) := by
        rw [hmod]
        omega
      rw [if_neg hcond] at hadv
      have hrest := ih (i + 1) (setIdx w ((i + 1) % n) 1) (by omega) hilt
        hact (by simp [setIdx, hlen]) (by simp [setIdx, hmod]) (by simp [setIdx])
        (fun cid hc => halive cid hc)
      simp only [advanceTimes, hadv]
      refine ⟨by simp [hrest.1], ?_, hrest.2.2.1, hrest.2.2.2⟩
      simp [List.countP_cons, hflag, hcond, hrest.2.1]

/-- The world of the C3 counterexample: an all-alive combat whose turn order
has exactly one combatant. -/
def cexW3 : WorldState :=
  { combat := { active := true, round := 1, turn_order := ["vex"], current_turn_index := 0 },
    characters := [("vex", { name := "Vex", hp := 9, max_hp := 9, ac := 14 })] }

/-- C3 counterexample: with a turn order of length 1 (all combatants alive,
initial index 0, round 1), the one advance_turn call of the round succeeds
but leaves the round at 1 and flags no new round — the rollover condition
`next_index == 0 and (current_index != 0 or attempts > 0)` never fires. -/
theorem claim3_single_combatant_cex :
    cexW3.combat.turn_order.length = 1 ∧
    cexW3.combat.round = 1 ∧ cexW3.combat.current_turn_index = 0 ∧
    (∀ cid ∈ cexW3.combat.turn_order, isAliveInWorld cexW3 cid = true) ∧
    ∃ res w', advance_turn cexW3 = some (res, w') ∧
      res.is_new_round = false ∧ res.round_number = 1 ∧ w'.combat.round = 1 := by
  refine ⟨rfl, rfl, rfl, by decide, ?_⟩
  obtain ⟨res, hadv, hround, hflag⟩ :=
    advance_turn_step cexW3 1 0 1 rfl rfl (by decide) rfl (by decide) rfl (by decide)
      (by decide)
  rw [if_neg (by decide : ¬((0 + 1) % 1 = 0 ∧ 0 ≠ 0))] at hadv hround
  rw [show decide ((0 + 1) % 1 = 0 ∧ 0 ≠ 0) = false from by decide] at hflag
  exact ⟨res, _, hadv, hflag, hround, rfl⟩

/-- C3 amended: for every active combat whose turn order has n ≥ 2 members,
all alive, starting at index 0 and round 1, calling advance_turn exactly n
times succeeds every time, increments the round by exactly 1 (to 2), and
flags exactly one of the advances as a new round.  (For n = 1 the round
never increments — see the counterexample.) -/
theorem claim3_round_rollover (w : WorldState) (n : Nat) (hn : 2 ≤ n)
    (hact : w.combat.active = true) (hlen : w.combat.turn_order.length = n)
    (hidx : w.combat.current_turn_index = 0) (hrnd : w.combat.round = 1)
    (halive : ∀ cid ∈ w.combat.turn_order, isAliveInWorld w cid = true) :
    (advanceTimes n w).1.length = n ∧
    ((advanceTimes n w).1.countP (fun res => res.is_new_round)) = 1 ∧
    (advanceTimes n w).2.combat.round = 2 := by
  obtain ⟨h1, h2, h3, _⟩ := advance_iter n hn n 0 w (by omega) (by omega)
    hact hlen hidx hrnd halive
  exact ⟨h1, h2, h3⟩

/-- C3 amended witness: a two-combatant all-alive combat advanced twice ends
at round 2 with exactly one new-round flag. -/
theorem claim3_round_rollover_witness :
    (advanceTimes 2
      { combat := { active := true, round := 1, turn_order := ["vex", "goblin_1"],
                    current_turn_index := 0 },
        characters := [("vex", { name := "Vex", hp := 9, max_hp := 9, ac := 14 })],
        enemies := [("goblin_1", { name := "G1", hp := 7, max_hp := 7, ac := 15 })] }).1.length
      = 2 ∧
    ((advanceTimes 2
      { combat := { active := true, round := 1, turn_order := ["vex", "goblin_1"],
                    current_turn_index := 0 },
        characters := [("vex", { name := "Vex", hp := 9, max_hp := 9, ac := 14 })],
        enemies := [("goblin_1", { name := "G1", hp := 7, max_hp := 7, ac := 15 })] }).1.countP
        (fun res => res.is_new_round)) = 1 ∧
    (advanceTimes 2
      { combat := { active := true, round := 1, turn_order := ["vex", "goblin_1"],
                    current_turn_index := 0 },
        characters := [("vex", { name := "Vex", hp := 9, max_hp := 9, ac := 14 })],
        enemies := [("goblin_1", { name := "G1", hp := 7, max_hp := 7, ac := 15 })] }).2.combat.round
      = 2 := by
  exact claim3_round_rollover
    { combat := { active := true, round := 1, turn_order := ["vex", "goblin_1"],
                  current_turn_index := 0 },
      characters := [("vex", { name := "Vex", hp := 9, max_hp := 9, ac := 14 })],
      enemies := [("goblin_1", { name := "G1", hp := 7, max_hp := 7, ac := 15 })] }
    2 (by decide) rfl rfl rfl rfl (by decide)

/-- Field extraction from a resolve_attack outcome: some (f result) when the
call succeeded, none when it raised. -/
def attackField {A : Type} (f : AttackResult → A)
    (r : Except String (AttackResult × WorldState × Nat)) : Option A :=
  match r with
  | .ok (res, _) => some (f res)
  | .error _ => none

/-- The C7 attack: unknown attacker and target in an empty store, every die
fixed at 5, resolved with the given advantage/disadvantage flags. -/
def cexAtk7 (adv dis : Bool) : Except String (AttackResult × WorldState × Nat) :=
  resolve_attack "a" "b" "longsword" {} adv dis (fun _ _ => 5) 0

/-- C7: at the dice layer requesting advantage and disadvantage together is
exactly requesting neither — roll_dice returns the identical result record
for every notation, identity and random source.  At the attack layer the
equivalence breaks on the stored attack roll: resolve_attack stores
rolls[0] when neither flag is passed but kept_roll when any flag is
passed, and kept_roll is None when the flags cancel — so with both flags
the attack_roll field is None (violating the `attack_roll: int`
annotation and the claimed equality of all result fields) while every
other field agrees with the flag-free call on the same fixed die. -/
theorem claim7_adv_disadv_cancel_bug :
    (∀ nota purpose roller rand ctr,
      roll_dice nota purpose roller true true rand ctr =
        roll_dice nota purpose roller false false rand ctr) ∧
    (attackField AttackResult.attack_roll (cexAtk7 true true) = some none ∧
      attackField AttackResult.attack_roll (cexAtk7 false false) = some (some 5) ∧
      attackField AttackResult.attack_total (cexAtk7 true true) =
        attackField AttackResult.attack_total (cexAtk7 false false) ∧
      attackField AttackResult.hit (cexAtk7 true true) =
        attackField AttackResult.hit (cexAtk7 false false) ∧
      attackField AttackResult.critical (cexAtk7 true true) =
        attackField AttackResult.critical (cexAtk7 false false) ∧
      attackField AttackResult.fumble (cexAtk7 true true) =
        attackField AttackResult.fumble (cexAtk7 false false) ∧
      attackField AttackResult.damage (cexAtk7 true true) =
        attackField AttackResult.damage (cexAtk7 false false) ∧
      attackField AttackResult.target_hp_after (cexAtk7 true true) =
        attackField AttackResult.target_hp_after (cexAtk7 false false)) := by
  constructor
  · intro nota purpose roller rand ctr
    unfold roll_dice
    cases parseDice nota with
    | error e => rfl
    | ok t =>
      obtain ⟨n, m, k⟩ := t
      simp only [Bool.not_true, Bool.not_false, Bool.and_false, Bool.and_true,
        Bool.false_and, Bool.or_self, Bool.false_or, Bool.or_false]
  · decide

/-- The C8 store: one character and no entity "ghost" anywhere. -/
def cexW8 : WorldState :=
  { characters := [("vex", { name := "Vex", hp := 9, max_hp := 9, ac := 14 })] }

/-- C8: against an id in neither mapping, update_hp does raise the
entity-not-found ValueError rather than crashing elsewhere — but
resolve_attack does not catch it: an attack whose die comes up 20 always
hits (the unknown target defaults to AC 10), reaches the update_hp call,
and the ValueError propagates out of resolve_attack uncaught instead of
being surfaced as a recoverable attack outcome. -/
theorem claim8_entity_not_found_crash :
    cexW8.characters.lookup "ghost" = none ∧
    cexW8.enemies.lookup "ghost" = none ∧
    update_hp cexW8 "ghost" (-3) = .error ("Entity not found: ghost") ∧
    resolve_attack "vex" "ghost" "longsword" cexW8 false false (fun _ _ => 20) 0 =
      .error ("Entity not found: ghost") := by
  exact ⟨rfl, rfl, rfl, rfl⟩

/-! ### C6 support: evaluating the dice pipeline symbolically -/

theorem parseDice_pos {s : String} {n m : Nat} {k : Int}
    (h : parseDice s = .ok (n, m, k)) : 1 ≤ n ∧ 1 ≤ m := by
  unfold parseDice at h
  split at h
  · cases h
  · split at h
    · cases h
    · split at h
      · cases h
      · simp only [Except.ok.injEq, Prod.mk.injEq] at h
        omega

theorem rollList_one (rand : Rand) (ctr d : Nat) :
    rollList rand ctr 1 d = ([rand ctr d], ctr + 1) := rfl

theorem rollList_length (rand : Rand) (n : Nat) :
    ∀ ctr d, (rollList rand ctr n d).1.length = n := by
  induction n with
  | zero => intro ctr d; rfl
  | succ n ih => intro ctr d; simp [rollList, ih]

theorem rollList_ctr (rand : Rand) (n : Nat) :
    ∀ ctr d, (rollList rand ctr n d).2 = ctr + n := by
  induction n with
  | zero => intro ctr d; simp [rollList]
  | succ n ih => intro ctr d; simp [rollList, ih]; omega

theorem rollList_bounds {rand : Rand} (hr : RandInRange rand) (n : Nat) :
    ∀ ctr d x, x ∈ (rollList rand ctr n d).1 → 1 ≤ x ∧ x ≤ d := by
  induction n with
  | zero => intro ctr d x hx; simp [rollList] at hx
  | succ n ih =>
    intro ctr d x hx
    simp only [rollList, List.mem_cons] at hx
    rcases hx with h | h
    · subst h; exact hr ctr d
    · exact ih (ctr + 1) d x h

/-- roll_dice with neither flag, on a notation that parses: a plain roll of
the parsed dice, the record spelled out. -/
theorem roll_dice_plain {nota : String} {n m : Nat} {k : Int}
    (h : parseDice nota = .ok (n, m, k)) (purpose roller : String)
    (rand : Rand) (ctr : Nat) :
    roll_dice nota purpose roller false false rand ctr =
      .ok ({ rolls := (rollList rand ctr n m).1, modifier := k,
             total := ((rollList rand ctr n m).1.sum : Int) + k,
             purpose := purpose, roller := roller,
             advantage_used := false, disadvantage_used := false,
             critical := (m == 20 && n == 1) && ((rollList rand ctr n m).1.headD 0 == 20),
             fumble := (m == 20 && n == 1) && ((rollList rand ctr n m).1.headD 0 == 1),
             nota := nota, kept_roll := none }, (rollList rand ctr n m).2) := by
  unfold roll_dice
  rw [h]
  rfl

/-- The attack notation resolve_attack builds is exactly diceStr 1 20 b. -/
theorem attack_ntn_eq (b : Int) :
    (if 0 ≤ b then "1d20+" ++ intStr b else "1d20" ++ intStr b) = diceStr 1 20 b := by
  by_cases hb : 0 ≤ b
  · rw [if_pos hb]
    unfold diceStr
    rw [if_pos hb]
    unfold intStr intChars
    rw [if_neg (by omega : ¬ b < 0)]
    rfl
  · rw [if_neg hb]
    unfold diceStr
    rw [if_neg hb]
    unfold intStr intChars
    rw [if_pos (by omega : b < 0)]
    rfl

/-- update_hp on a present character never raises. -/
theorem update_hp_char_ok {w : WorldState} {id : String} {c : CharacterState}
    (h : w.characters.lookup id = some c) (d : Int) :
    ∃ p, update_hp w id d = .ok p := by
  unfold update_hp
  rw [h]
  exact ⟨_, rfl⟩

theorem bind_ok_str {α β : Type} (a : α) (f : α → Except String β) :
    ((Except.ok a : Except String α) >>= f) = f a := rfl

theorem pure_ok_str {α : Type} (a : α) :
    (pure a : Except String α) = .ok a := rfl

/-- The critical path of resolve_attack: no advantage flags, a natural 20 on
the attack die, a target present among the characters — the call succeeds,
is critical, hits, and its damage is the damage-notation roll plus the
stripped re-roll: the dice summed twice, the modifier added once. -/
theorem resolve_attack_crit (w : WorldState) (attacker target weapon : String)
    (c : CharacterState) (rand : Rand) (ctr n m : Nat) (k : Int)
    (htgt : w.characters.lookup target = some c)
    (h20 : rand ctr 20 = 20)
    (hdd : parseDice (get_damage_dice attacker weapon w).1 = .ok (n, m, k))
    (hnorm : strNormal (get_damage_dice attacker weapon w).1 = true) :
    ∃ res w2 ctr2, resolve_attack attacker target weapon w false false rand ctr =
        .ok (res, w2, ctr2) ∧
      res.critical = true ∧ res.hit = true ∧
      res.damage = (((rollList rand (ctr + 1) n m).1.sum +
        (rollList rand (ctr + 1 + n) n m).1.sum : Nat) : Int) + k := by
  have hb : parseDice (diceStr 1 20 (get_attack_bonus attacker weapon w)) =
      .ok (1, 20, get_attack_bonus attacker weapon w) :=
    parseDice_diceStr 1 20 _ (by decide) (by decide)
  simp only [resolve_attack, htgt, attack_ntn_eq, roll_dice_plain hb,
    roll_dice_plain hdd, roll_dice_plain (parseDice_stripMod hnorm hdd),
    bind_ok_str, pure_ok_str, rollList_one, h20, rollList_ctr,
    List.headD_cons, beq_self_eq_true, Bool.and_self, Bool.and_true,
    Bool.true_and, check_hit, eq_self_iff_true, if_true]
  obtain ⟨p, hupd⟩ := update_hp_char_ok htgt
    (-((((rollList rand (ctr + 1) n m).1.sum : Int) + k) +
      (((rollList rand (ctr + 1 + n) n m).1.sum : Int) + 0)))
  rw [hupd]
  simp only [bind_ok_str]
  exact ⟨_, _, _, rfl, rfl, rfl, by push_cast; ring⟩

/-- roll_damage with the critical flag rebuilds the notation with twice the
die count and the same modifier, and rolls it plainly. -/
theorem roll_damage_crit {dd : String} {n m : Nat} {k : Int}
    (h : parseDice dd = .ok (n, m, k)) (roller dtype : String)
    (rand : Rand) (ctr : Nat) :
    roll_damage roller dd dtype true rand ctr =
      roll_dice (diceStr (2 * n) m k)
        (if dtype != "damage" then pyCapitalize dtype ++ " Damage" else "Damage")
        roller false false rand ctr := by
  unfold roll_damage
  rw [h]
  rfl

/-- The C6 store: an attacker and a target, both characters. -/
def cexW6 : WorldState :=
  { characters := [("vex", { name := "Vex", hp := 9, max_hp := 9, ac := 14 }),
                   ("bob", { name := "Bob", hp := 8, max_hp := 8, ac := 12 })] }

/-- C6: critical damage doubles the dice portion only.  (a) roll_damage with
the critical flag rebuilds the notation with 2N dice and the same modifier:
the result rolls exactly 2N dice, each in [1, M] for an in-range source,
and adds K once.  (b) resolve_attack's critical branch (a natural 20, flags
off, an existing target) rolls the notation once and its stripped dice
portion a second time: the damage is the sum of the two N-die rolls — 2N
dice in all, each in [1, M] — plus the modifier K exactly once. -/
theorem claim6_critical_damage :
    (∀ (roller dd dtype : String) (rand : Rand) (ctr n m : Nat) (k : Int),
      parseDice dd = .ok (n, m, k) →
      ∃ r, roll_damage roller dd dtype true rand ctr = .ok (r, ctr + 2 * n) ∧
        r.rolls = (rollList rand ctr (2 * n) m).1 ∧
        r.rolls.length = 2 * n ∧
        r.modifier = k ∧
        r.total = (r.rolls.sum : Int) + k ∧
        (RandInRange rand → ∀ x ∈ r.rolls, 1 ≤ x ∧ x ≤ m)) ∧
    (∀ (w : WorldState) (attacker target weapon : String) (c : CharacterState)
      (rand : Rand) (ctr n m : Nat) (k : Int),
      w.characters.lookup target = some c →
      rand ctr 20 = 20 →
      parseDice (get_damage_dice attacker weapon w).1 = .ok (n, m, k) →
      strNormal (get_damage_dice attacker weapon w).1 = true →
      ∃ res w2 ctr2, resolve_attack attacker target weapon w false false rand ctr =
          .ok (res, w2, ctr2) ∧
        res.critical = true ∧ res.hit = true ∧
        ((rollList rand (ctr + 1) n m).1 ++ (rollList rand (ctr + 1 + n) n m).1).length
          = 2 * n ∧
        res.damage =
          (((rollList rand (ctr + 1) n m).1 ++ (rollList rand (ctr + 1 + n) n m).1).sum : Int)
            + k ∧
        (RandInRange rand →
          ∀ x ∈ (rollList rand (ctr + 1) n m).1 ++ (rollList rand (ctr + 1 + n) n m).1,
            1 ≤ x ∧ x ≤ m)) := by
  constructor
  · intro roller dd dtype rand ctr n m k h
    obtain ⟨hn1, hm1⟩ := parseDice_pos h
    have hp2 : parseDice (diceStr (2 * n) m k) = .ok (2 * n, m, k) :=
      parseDice_diceStr _ _ _ (by omega) hm1
    rw [roll_damage_crit h, roll_dice_plain hp2, rollList_ctr]
    exact ⟨_, rfl, rfl, rollList_length rand (2 * n) ctr m, rfl, rfl,
      fun hr x hx => rollList_bounds hr (2 * n) ctr m x hx⟩
  · intro w attacker target weapon c rand ctr n m k htgt h20 hdd hnorm
    obtain ⟨res, w2, ctr2, heq, hcrit, hhit, hdmg⟩ :=
      resolve_attack_crit w attacker target weapon c rand ctr n m k htgt h20 hdd hnorm
    refine ⟨res, w2, ctr2, heq, hcrit, hhit, ?_, ?_, ?_⟩
    · rw [List.length_append, rollList_length rand n (ctr + 1) m,
        rollList_length rand n (ctr + 1 + n) m]
      omega
    · rw [List.sum_append]
      exact hdmg
    · intro hr x hx
      rcases List.mem_append.mp hx with h1 | h1
      · exact rollList_bounds hr n (ctr + 1) m x h1
      · exact rollList_bounds hr n (ctr + 1 + n) m x h1

/-- C6 witness: 2d6+3 rolled critically (every die 4) doubles to four d6
plus 3, and a longsword critical against a present target deals the two
1d8 rolls (every die 20, clamped by nothing) plus the +0 modifier once. -/
theorem claim6_critical_damage_witness :
    (∃ r, roll_damage "vex" "2d6+3" "slashing" true (fun _ _ => 4) 0 = .ok (r, 0 + 2 * 2) ∧
      r.rolls = (rollList (fun _ _ => 4) 0 (2 * 2) 6).1 ∧
      r.rolls.length = 2 * 2 ∧
      r.modifier = 3 ∧
      r.total = (r.rolls.sum : Int) + 3 ∧
      (RandInRange (fun _ _ => 4) → ∀ x ∈ r.rolls, 1 ≤ x ∧ x ≤ 6)) ∧
    (∃ res w2 ctr2,
      resolve_attack "vex" "bob" "longsword" cexW6 false false (fun _ _ => 20) 0 =
        .ok (res, w2, ctr2) ∧
      res.critical = true ∧ res.hit = true ∧
      ((rollList (fun _ _ => 20) (0 + 1) 1 8).1 ++
        (rollList (fun _ _ => 20) (0 + 1 + 1) 1 8).1).length = 2 * 1 ∧
      res.damage =
        (((rollList (fun _ _ => 20) (0 + 1) 1 8).1 ++
          (rollList (fun _ _ => 20) (0 + 1 + 1) 1 8).1).sum : Int) + 0 ∧
      (RandInRange (fun _ _ => 20) →
        ∀ x ∈ (rollList (fun _ _ => 20) (0 + 1) 1 8).1 ++
          (rollList (fun _ _ => 20) (0 + 1 + 1) 1 8).1,
          1 ≤ x ∧ x ≤ 8)) :=
  ⟨claim6_critical_damage.1 "vex" "2d6+3" "slashing" (fun _ _ => 4) 0 2 6 3 rfl,
   claim6_critical_damage.2 cexW6 "vex" "bob" "longsword"
     { name := "Bob", hp := 8, max_hp := 8, ac := 12 } (fun _ _ => 20) 0 1 8 0
     rfl rfl rfl rfl⟩

end Thenvoi
